import Mathlib

/-!
Verification of the lesson-plan generator's parsing core
(`lessonplan_bot.py`) against its natural-language specification.

Python strings are modelled as `List Char` (`PyStr`); Python code-point
slicing, `str.strip`, `str.splitlines`, `str.split` and the regular
expressions used by the source are modelled by executable functions below.
The model restricts `\d` and `[A-Za-z]` to ASCII and `\w` to ASCII plus
Hangul, which is exact for every character class the source's patterns can
accept on the inputs considered here.
-/

/-- Python strings, modelled as lists of unicode scalar values
(Python indexes and slices strings by code point, as `List Char` does). -/
abbrev PyStr := List Char

/-- Coerce a Lean string literal to the `PyStr` model. -/
def pys (s : String) : PyStr := s.data

/-- Whitespace for `str.strip()` / `str.split()` / regex `\s`
(ASCII whitespace plus the common Unicode space characters). -/
def isPySpace (c : Char) : Bool :=
  c = ' ' ∨ c = '\t' ∨ c = '\n' ∨ c = '\r' ∨ c = '\x0b' ∨ c = '\x0c' ∨
  c = '\x1c' ∨ c = '\x1d' ∨ c = '\x1e' ∨ c = '\x85' ∨ c = '\xa0' ∨
  c = ' ' ∨ (0x2000 ≤ c.toNat ∧ c.toNat ≤ 0x200a) ∨ c = ' ' ∨
  c = ' ' ∨ c = ' ' ∨ c = ' ' ∨ c = '　'

/-- Line-break characters recognised by `str.splitlines()`. -/
def isLineBreak (c : Char) : Bool :=
  c = '\n' ∨ c = '\r' ∨ c = '\x0b' ∨ c = '\x0c' ∨ c = '\x1c' ∨
  c = '\x1d' ∨ c = '\x1e' ∨ c = '\x85' ∨ c = ' ' ∨ c = ' '

/-- Worker for `pySplitlines`: accumulates the current line (reversed). -/
def slGo : PyStr → PyStr → List PyStr
  | [], acc => [acc.reverse]
  | [c], acc => if isLineBreak c then [acc.reverse] else [(c :: acc).reverse]
  | c :: d :: rest, acc =>
    if c = '\r' ∧ d = '\n' then
      acc.reverse :: (match rest with | [] => [] | _ :: _ => slGo rest [])
    else if isLineBreak c then acc.reverse :: slGo (d :: rest) []
    else slGo (d :: rest) (c :: acc)

/-- Python `str.splitlines()`: a trailing terminator produces no empty
final line, and `"".splitlines() == []`. -/
def pySplitlines (l : PyStr) : List PyStr :=
  match l with
  | [] => []
  | _ :: _ => slGo l []

/-- Python `str.lstrip()` (whitespace). -/
def lstripCore (l : PyStr) : PyStr := l.dropWhile isPySpace

/-- Python `str.rstrip()` (whitespace). -/
def rstripCore (l : PyStr) : PyStr := (l.reverse.dropWhile isPySpace).reverse

/-- Python `str.strip()` (whitespace). -/
def pyStrip (l : PyStr) : PyStr := rstripCore (lstripCore l)

/-- Worker for `pySplitWs`; the fuel exceeds the input length, and every
recursive call strictly shortens the input, so it never runs out. -/
def pySplitWsGo : Nat → PyStr → List PyStr
  | 0, _ => []
  | _ + 1, [] => []
  | fuel + 1, c :: rest =>
    if isPySpace c then pySplitWsGo fuel rest
    else (c :: rest.takeWhile (fun x => !(isPySpace x))) ::
         pySplitWsGo fuel (rest.dropWhile (fun x => !(isPySpace x)))

/-- Python `str.split()` with no argument: split on whitespace runs,
returning no empty fields. -/
def pySplitWs (l : PyStr) : List PyStr := pySplitWsGo (l.length + 1) l

/-- Python `sep.join(parts)`. -/
def joinSep (sep : PyStr) : List PyStr → PyStr
  | [] => []
  | [x] => x
  | x :: y :: rest => x ++ sep ++ joinSep sep (y :: rest)

/-- Python `" ".join(s.split())`: collapse whitespace runs to single
spaces and trim the ends. -/
def collapseWs (l : PyStr) : PyStr := joinSep (pys " ") (pySplitWs l)

/-- Worker for `str.split("|", maxsplit)`: `acc` is the current field,
reversed. -/
def splitPipeGo : Nat → PyStr → PyStr → List PyStr
  | _, [], acc => [acc.reverse]
  | 0, l, acc => [acc.reverse ++ l]
  | n + 1, c :: rest, acc =>
    if c = '|' then acc.reverse :: splitPipeGo n rest []
    else splitPipeGo (n + 1) rest (c :: acc)

/-- Python `line.split("|", 3)`. -/
def splitPipe3 (l : PyStr) : List PyStr := splitPipeGo 3 l []

/-- One row of the editable lesson-plan table (`phase|time|content|remarks`).
The Python code stores these as dicts of strings; missing keys default to
`""`, which the total `PyStr` fields model. -/
structure LessonRow where
  phase : PyStr
  time : PyStr
  content : PyStr
  remarks : PyStr
deriving Repr, DecidableEq

/-- The `" | ".join(v for v in [phase, time, remarks] if v)` expression of
`normalize_table_rows`. -/
def rowAddon (phase time remarks : PyStr) : PyStr :=
  joinSep (pys " | ") ([phase, time, remarks].filter (fun v => v ≠ []))

/-- Python `rows[-1]["content"] = (rows[-1]["content"] + "\n" + addon).strip()`:
update the last row's content in place. -/
def updateLastContent (l : List LessonRow) (addon : PyStr) : List LessonRow :=
  match l with
  | [] => []
  | [r] => [{ r with content := pyStrip (r.content ++ pys "\n" ++ addon) }]
  | r :: rs => r :: updateLastContent rs addon

/-- The loop of `normalize_table_rows` (source lines 304-323); `repaired`
is the accumulator list built so far, in order. -/
def normGo : List LessonRow → List LessonRow → List LessonRow
  | [], repaired => repaired
  | row :: rest, repaired =>
    let phase := pyStrip row.phase
    let time := pyStrip row.time
    let content := pyStrip row.content
    let remarks := pyStrip row.remarks
    if phase = [] ∧ time = [] ∧ content = [] ∧ remarks = [] then
      normGo rest repaired
    else if content = [] ∧ repaired ≠ [] then
      let addon := rowAddon phase time remarks
      if addon ≠ [] then normGo rest (updateLastContent repaired addon)
      else normGo rest repaired
    else
      normGo rest (repaired ++ [⟨phase, time, content, remarks⟩])

/-- `normalize_table_rows(rows)` from `lessonplan_bot.py` (lines 304-323). -/
def normalize_table_rows (rows : List LessonRow) : List LessonRow :=
  normGo rows []

/-- Pad a field list with empty strings to length 4
(`while len(parts) < 4: parts.append("")`). -/
def padTo4 (l : List PyStr) : List PyStr := l ++ List.replicate (4 - l.length) []

/-- The line loop of `parse_table_rows_text` (source lines 325-341), before
the final `normalize_table_rows` pass. -/
def parseGo : List PyStr → List LessonRow → List LessonRow
  | [], rows => rows
  | raw :: rest, rows =>
    let line := pyStrip raw
    if line = [] then parseGo rest rows
    else if !(line.contains '|') then
      match rows with
      | [] => parseGo rest [⟨[], [], line, []⟩]
      | _ :: _ => parseGo rest (updateLastContent rows line)
    else
      let parts := padTo4 ((splitPipe3 line).map pyStrip)
      parseGo rest
        (rows ++ [⟨parts.getD 0 [], parts.getD 1 [], parts.getD 2 [], parts.getD 3 []⟩])

/-- `parse_table_rows_text(text)` from `lessonplan_bot.py` (lines 325-342). -/
def parse_table_rows_text (text : PyStr) : List LessonRow :=
  normalize_table_rows (parseGo (pySplitlines text) [])

/-- Modelled from the spec's words for claim C5 (original form): for each
non-blank line, IF the line contains at least 3 pipe separators, split into
exactly 4 fields (phase, time, content, remarks), padding with empty strings
if short; otherwise treat the line as a continuation appended
(newline-joined) to the previous row's content, or start a new row with
empty phase/time/remarks if there is no previous row. -/
def parseGoClaimC5 : List PyStr → List LessonRow → List LessonRow
  | [], rows => rows
  | raw :: rest, rows =>
    let line := pyStrip raw
    if line = [] then parseGoClaimC5 rest rows
    else if 3 ≤ line.count '|' then
      let parts := padTo4 ((splitPipe3 line).map pyStrip)
      parseGoClaimC5 rest
        (rows ++ [⟨parts.getD 0 [], parts.getD 1 [], parts.getD 2 [], parts.getD 3 []⟩])
    else
      match rows with
      | [] => parseGoClaimC5 rest [⟨[], [], line, []⟩]
      | _ :: _ => parseGoClaimC5 rest (updateLastContent rows line)

/-- Split a string at its first pipe, if any (spec-side formulation). -/
def splitAtPipe : PyStr → Option (PyStr × PyStr)
  | [] => none
  | c :: rest =>
    if c = '|' then some ([], rest)
    else (splitAtPipe rest).map (fun p => (c :: p.1, p.2))

/-- Spec-side formulation of splitting a line on its first three pipe
separators into up to four fields. -/
def claimSplit4 (l : PyStr) : List PyStr :=
  match splitAtPipe l with
  | none => [l]
  | some (a, r1) =>
    match splitAtPipe r1 with
    | none => [a, r1]
    | some (b, r2) =>
      match splitAtPipe r2 with
      | none => [a, b, r2]
      | some (c, r3) => [a, b, c, r3]

/-- Spec-side formulation of appending a continuation line, newline-joined
and re-trimmed, to the last row's content. -/
def lastContentJoin : List LessonRow → PyStr → List LessonRow
  | [], _ => []
  | [r], line => [⟨r.phase, r.time, pyStrip (r.content ++ '\n' :: line), r.remarks⟩]
  | r :: rs, line => r :: lastContentJoin rs line

/-- Modelled from the amended claim C5: for each non-blank line, IF the line
contains at least ONE pipe separator, split it on its first three pipes into
up to 4 fields (each whitespace-trimmed), padding with empty strings to 4;
otherwise treat the line as a continuation appended (newline-joined, then
re-trimmed) to the previous row's content, or start a new row with empty
phase/time/remarks if there is no previous row. -/
def parseGoAmendC5 : List PyStr → List LessonRow → List LessonRow
  | [], rows => rows
  | raw :: rest, rows =>
    let line := pyStrip raw
    if line = [] then parseGoAmendC5 rest rows
    else if 1 ≤ line.count '|' then
      let parts := padTo4 ((claimSplit4 line).map pyStrip)
      parseGoAmendC5 rest
        (rows ++ [⟨parts.getD 0 [], parts.getD 1 [], parts.getD 2 [], parts.getD 3 []⟩])
    else
      match rows with
      | [] => parseGoAmendC5 rest [⟨[], [], line, []⟩]
      | _ :: _ => parseGoAmendC5 rest (lastContentJoin rows line)

/-- A parsed syllabus week (`WeekInfo` dataclass / its `to_dict()` form).
`week_no` is an `Int` as in Python; `year = 0` models a missing/falsy
`year` entry (`week_info.get("year") or ...`). -/
structure WeekInfo where
  week_no : Int
  date_range : PyStr
  events : List PyStr
  details : PyStr
  raw_text : PyStr
  year : Nat
deriving Repr, DecidableEq

/-- The `develop_seed` expression of `generate_lesson_table_rows_text`:
`str(week_info.get("details") or "핵심 단원 학습")[:100]`. -/
def developSeed (wi : WeekInfo) : PyStr :=
  (if wi.details = [] then pys "핵심 단원 학습" else wi.details).take 100

/-- `generate_lesson_table_rows_text(...)` from `lessonplan_bot.py`
(lines 292-300). -/
def generate_lesson_table_rows_text (wi : WeekInfo) (class_plan_note : PyStr)
    (include_prayer : Bool) : PyStr :=
  let intro := if include_prayer then pys "기도 및 출석 확인, 지난 시간 복습"
               else pys "출석 확인, 지난 시간 복습"
  let develop := developSeed wi ++ pys " 설명 및 활동\n- 메모: " ++
    (if class_plan_note = [] then pys "개념 확인 활동" else class_plan_note)
  pys "도입|10분|" ++ intro ++ pys "|집중 유도\n전개|25분|" ++ develop ++
    pys "|질의응답\n정리|5분|형성평가, 과제 안내, 다음 시간 예고|마무리"

/-- Python `int(...)` on a string of decimal digits. -/
def digitsToNat (l : PyStr) : Nat := l.foldl (fun a c => a * 10 + (c.toNat - 48)) 0

/-- Greedy `\\d{1,2}` with backtracking, in continuation-passing style:
try two digits first, then one (model restricts `\\d` to ASCII digits). -/
def d12 {a : Type} (l : PyStr) (k : PyStr → PyStr → Option a) : Option a :=
  match l with
  | [] => none
  | [c1] => if c1.isDigit then k [c1] [] else none
  | c1 :: c2 :: rest =>
    if c1.isDigit then
      if c2.isDigit then (k [c1, c2] rest) <|> (k [c1] (c2 :: rest))
      else k [c1] (c2 :: rest)
    else none

/-- Anchored matcher for `WEEK_RE` at a line start of the cleaned text:
`^\\s*(\\d{1,2})\\s*주\\s*(\\d{1,2}[./]\\d{1,2}\\s*[-~]\\s*\\d{1,2}[./]\\d{1,2})(.*)$`.
Returns the week-number digits, the date-range group with its internal
whitespace removed (as `re.sub(r"\\s+", "", ...)` does on line 140), and the
rest of the input after the match (the `.*` tail stops before `\\n`). -/
def weekMatchHere (l : PyStr) : Option (PyStr × PyStr × PyStr) :=
  d12 (l.dropWhile isPySpace) (fun wk rest1 =>
    match rest1.dropWhile isPySpace with
    | '주' :: rest3 =>
      d12 (rest3.dropWhile isPySpace) (fun a rest5 =>
        match rest5 with
        | s1 :: rest6 =>
          if s1 = '.' ∨ s1 = '/' then
            d12 rest6 (fun b rest7 =>
              match rest7.dropWhile isPySpace with
              | dash :: rest9 =>
                if dash = '-' ∨ dash = '~' then
                  d12 (rest9.dropWhile isPySpace) (fun c rest11 =>
                    match rest11 with
                    | s2 :: rest12 =>
                      if s2 = '.' ∨ s2 = '/' then
                        d12 rest12 (fun d rest13 =>
                          some (wk, a ++ s1 :: b ++ dash :: c ++ s2 :: d,
                            rest13.dropWhile (fun ch => ch ≠ '\n')))
                      else none
                    | [] => none)
                else none
              | [] => none)
          else none
        | [] => none)
    | _ => none)

/-- Offsets of the positions where `(?m)^` can match: 0 and every position
immediately after a newline. -/
def nlPositions : PyStr → Nat → List Nat
  | [], _ => []
  | c :: rest, i =>
    if c = '\n' then (i + 1) :: nlPositions rest (i + 1) else nlPositions rest (i + 1)

def lineStarts (l : PyStr) : List Nat := 0 :: nlPositions l 0

/-- One `WEEK_RE` match: start/end offsets, week-number digits, cleaned
date-range group. -/
structure WeekMatch where
  start : Nat
  stop : Nat
  wkNo : PyStr
  dr : PyStr
deriving Repr, DecidableEq

/-- `WEEK_RE.finditer` over the cleaned text: try the anchored matcher at
each line start at or beyond the previous match's end, left to right. -/
def collectWeekMatches (cs : PyStr) : List Nat → Nat → List WeekMatch
  | [], _ => []
  | p :: ps, minPos =>
    if p < minPos then collectWeekMatches cs ps minPos
    else
      match weekMatchHere (cs.drop p) with
      | some (wk, dr, rest) =>
        ⟨p, cs.length - rest.length, wk, dr⟩ ::
          collectWeekMatches cs ps (cs.length - rest.length)
      | none => collectWeekMatches cs ps minPos

/-- Regex `\\w` (model: ASCII alphanumerics, underscore, and Hangul). -/
def isWordChar (c : Char) : Bool :=
  c.isAlpha ∨ c.isDigit ∨ c = '_' ∨ (0xAC00 ≤ c.toNat ∧ c.toNat ≤ 0xD7A3) ∨
  (0x1100 ≤ c.toNat ∧ c.toNat ≤ 0x11FF) ∨ (0x3130 ≤ c.toNat ∧ c.toNat ≤ 0x318F)

/-- `\\b` at the position before this suffix (the previous char was a word
character, since all matched tokens end in word characters). -/
def boundaryAfter : PyStr → Bool
  | [] => true
  | c :: _ => !(isWordChar c)

/-- Anchored matcher for `YEAR_RE`'s group: `20\\d{2}` then `\\b`. -/
def yearAt : PyStr → Option Nat
  | '2' :: '0' :: c3 :: c4 :: rest =>
    if c3.isDigit ∧ c4.isDigit ∧ boundaryAfter rest then
      some (digitsToNat ['2', '0', c3, c4])
    else none
  | _ => none

/-- `YEAR_RE.search`: first `\\b(20\\d{2})\\b` match, scanning left to right
(a match can only start where the previous character is not a word char). -/
def yearSearchGo : Nat → Option Char → PyStr → Option Nat
  | 0, _, _ => none
  | _ + 1, _, [] => none
  | fuel + 1, prev, c :: rest =>
    if prev.elim true (fun p => !(isWordChar p)) then
      match yearAt (c :: rest) with
      | some y => some y
      | none => yearSearchGo fuel (some c) rest
    else yearSearchGo fuel (some c) rest

def yearSearch (l : PyStr) : Option Nat := yearSearchGo (l.length + 1) none l

/-- Greedy `\\d{1,2}` then `\\b`, with backtracking, for CLASS_RE branch 2. -/
def digitsTailBd : PyStr → Option (PyStr × PyStr)
  | [] => none
  | [d1] => if d1.isDigit then some ([d1], []) else none
  | d1 :: d2 :: rest =>
    if d1.isDigit ∧ d2.isDigit ∧ boundaryAfter rest then some ([d1, d2], rest)
    else if d1.isDigit ∧ !(isWordChar d2) then some ([d1], d2 :: rest)
    else none

/-- CLASS_RE / SUBSECTION_CODE_RE branch `\\d{1,2}[A-Za-z]` then `\\b`,
greedy with backtracking on the digit count. -/
def classBranch1 : PyStr → Option (PyStr × PyStr)
  | d1 :: d2 :: a :: rest =>
    if d1.isDigit ∧ d2.isDigit ∧ a.isAlpha ∧ boundaryAfter rest then
      some ([d1, d2, a], rest)
    else if d1.isDigit ∧ d2.isAlpha ∧ !(isWordChar a) then
      some ([d1, d2], a :: rest)
    else none
  | [d1, d2] =>
    if d1.isDigit ∧ d2.isAlpha then some ([d1, d2], []) else none
  | _ => none

/-- CLASS_RE branch `[A-Za-z]{1,3}\\d{1,2}` then `\\b`, greedy with
backtracking on the letter count. -/
def classBranch2 (l : PyStr) : Option (PyStr × PyStr) :=
  (match l with
   | a1 :: a2 :: a3 :: rest =>
     if a1.isAlpha ∧ a2.isAlpha ∧ a3.isAlpha then
       (digitsTailBd rest).map (fun p => (a1 :: a2 :: a3 :: p.1, p.2))
     else none
   | _ => none) <|>
  (match l with
   | a1 :: a2 :: rest =>
     if a1.isAlpha ∧ a2.isAlpha then
       (digitsTailBd rest).map (fun p => (a1 :: a2 :: p.1, p.2))
     else none
   | _ => none) <|>
  (match l with
   | a1 :: rest =>
     if a1.isAlpha then (digitsTailBd rest).map (fun p => (a1 :: p.1, p.2))
     else none
   | _ => none)

/-- `CLASS_RE.findall`: non-overlapping scan, preferring branch 1 as the
regex alternation does; a match may start only after a non-word character
(the leading `\\b`). Fuel `length + 1` bounds the scan steps, since every
step consumes at least one character. -/
def classFindGo : Nat → Option Char → PyStr → List PyStr
  | 0, _, _ => []
  | _ + 1, _, [] => []
  | fuel + 1, prev, c :: rest =>
    if prev.elim true (fun p => !(isWordChar p)) then
      match classBranch1 (c :: rest) <|> classBranch2 (c :: rest) with
      | some (tok, after) => tok :: classFindGo fuel (some (tok.getLastD c)) after
      | none => classFindGo fuel (some c) rest
    else classFindGo fuel (some c) rest

def classFindall (l : PyStr) : List PyStr := classFindGo (l.length + 1) none l

/-- `SUBSECTION_CODE_RE.finditer`: like `classFindall` but branch 1 only. -/
def subsectionFindGo : Nat → Option Char → PyStr → List PyStr
  | 0, _, _ => []
  | _ + 1, _, [] => []
  | fuel + 1, prev, c :: rest =>
    if prev.elim true (fun p => !(isWordChar p)) then
      match classBranch1 (c :: rest) with
      | some (tok, after) => tok :: subsectionFindGo fuel (some (tok.getLastD c)) after
      | none => subsectionFindGo fuel (some c) rest
    else subsectionFindGo fuel (some c) rest

def subsectionFindall (l : PyStr) : List PyStr := subsectionFindGo (l.length + 1) none l

/-- Python `dict.fromkeys` / `if x not in seen` de-duplication preserving
first-seen order. -/
def dedupGo {a : Type} [DecidableEq a] (seen : List a) : List a → List a
  | [] => []
  | c :: rest => if c ∈ seen then dedupGo seen rest else c :: dedupGo (c :: seen) rest

def dedupKeepOrder {a : Type} [DecidableEq a] (l : List a) : List a := dedupGo [] l

/-- Python string `<` (lexicographic by code point). -/
def lexLt : PyStr → PyStr → Bool
  | [], [] => false
  | [], _ :: _ => true
  | _ :: _, [] => false
  | a :: as, b :: bs => a < b ∨ (a = b ∧ lexLt as bs)

/-- Insertion sort implementing Python `sorted` on strings. -/
def sortIns (x : PyStr) : List PyStr → List PyStr
  | [] => [x]
  | y :: ys => if lexLt y x then y :: sortIns x ys else x :: y :: ys

def sortStrs : List PyStr → List PyStr
  | [] => []
  | x :: xs => sortIns x (sortStrs xs)

/-- Line 127: `"\\n".join(line.rstrip() for line in text.splitlines() if line.strip())`. -/
def cleanedOf (text : PyStr) : PyStr :=
  joinSep (pys "\n") (((pySplitlines text).filter (fun ln => pyStrip ln ≠ [])).map rstripCore)

/-- Python slice `cs[a:b]`. -/
def blockSlice (cs : PyStr) (a b : Nat) : PyStr := (cs.drop a).take (b - a)

/-- The per-match loop of `parse_weeks_from_text` (lines 132-146): each
block runs from its match's start to the next match's start (or the end of
the cleaned text). -/
def buildWeeks (cs : PyStr) (year : Nat) : List WeekMatch → List WeekInfo
  | [] => []
  | m :: rest =>
    let bend := match rest with | m2 :: _ => m2.start | [] => cs.length
    let block := pyStrip (blockSlice cs m.start bend)
    ⟨(digitsToNat m.wkNo : Int), m.dr, sortStrs (dedupKeepOrder (classFindall block)),
      (collapseWs block).take 400, block.take 2500, year⟩ :: buildWeeks cs year rest

/-- `parse_weeks_from_text(text)` from `lessonplan_bot.py` (lines 126-152);
`todayYear` models `date.today().year`. -/
def parse_weeks_from_text (todayYear : Nat) (text : PyStr) : List WeekInfo :=
  let cleaned := cleanedOf text
  let ms := collectWeekMatches cleaned (lineStarts cleaned) 0
  let year := (yearSearch text).getD todayYear
  let weeks := buildWeeks cleaned year ms
  if weeks = [] then
    let fb0 := (collapseWs cleaned).take 500
    let fb := if fb0 = [] then pys "주차 정보 없음" else fb0
    [⟨1, pys "N/A", [], fb, fb, year⟩]
  else weeks

/-- Proleptic Gregorian leap year, as `datetime` uses. -/
def isLeap (y : Nat) : Bool := y % 4 = 0 ∧ (y % 100 ≠ 0 ∨ y % 400 = 0)

def daysInMonth (y m : Nat) : Nat :=
  if m = 2 then (if isLeap y then 29 else 28)
  else if m = 4 ∨ m = 6 ∨ m = 9 ∨ m = 11 then 30
  else 31

def daysBeforeMonth (y m : Nat) : Nat :=
  ((List.range' 1 (m - 1)).map (daysInMonth y)).sum

/-- A `datetime` value (date part only; the code never sets a time). -/
structure PyDate where
  y : Nat
  m : Nat
  d : Nat
deriving Repr, DecidableEq

/-- `date.toordinal()`: day 1 is 0001-01-01. -/
def toOrdinal (dt : PyDate) : Nat :=
  365 * (dt.y - 1) + (dt.y - 1) / 4 - (dt.y - 1) / 100 + (dt.y - 1) / 400 +
    daysBeforeMonth dt.y dt.m + dt.d

/-- `datetime.weekday()`: Monday = 0 (0001-01-01 is a Monday). -/
def pyWeekday (dt : PyDate) : Nat := (toOrdinal dt - 1) % 7

/-- Python exceptions the modelled functions can raise. -/
inductive PyErr where
  | valueError
  | nameError (missing : String)
deriving Repr, DecidableEq

/-- `datetime(year, month, day)` argument validation
(MINYEAR = 1, MAXYEAR = 9999). -/
def mkDatetime (y m d : Nat) : Except PyErr PyDate :=
  if 1 ≤ y ∧ y ≤ 9999 ∧ 1 ≤ m ∧ m ≤ 12 ∧ 1 ≤ d ∧ d ≤ daysInMonth y m then
    Except.ok ⟨y, m, d⟩
  else Except.error PyErr.valueError

def dateLtB (a b : PyDate) : Bool :=
  a.y < b.y ∨ (a.y = b.y ∧ (a.m < b.m ∨ (a.m = b.m ∧ a.d < b.d)))

def dateLeB (a b : PyDate) : Bool :=
  a.y < b.y ∨ (a.y = b.y ∧ (a.m < b.m ∨ (a.m = b.m ∧ a.d ≤ b.d)))

/-- `cur + timedelta(days=1)`. -/
def nextDay (dt : PyDate) : PyDate :=
  if dt.d < daysInMonth dt.y dt.m then ⟨dt.y, dt.m, dt.d + 1⟩
  else if dt.m < 12 then ⟨dt.y, dt.m + 1, 1⟩
  else ⟨dt.y + 1, 1, 1⟩

/-- The `while cur <= end` collection loop of `infer_class_dates_from_week`
(lines 212-216). The fuel equals the number of days in the closed range,
which bounds the loop's iterations since each step advances `cur` by one
day. -/
def collectDates : Nat → PyDate → PyDate → List Nat → List PyDate
  | 0, _, _, _ => []
  | fuel + 1, cur, endD, targets =>
    if dateLeB cur endD then
      (if targets = [] ∨ pyWeekday cur ∈ targets then [cur] else []) ++
        collectDates fuel (nextDay cur) endD targets
    else []

def isWeekdayChar (c : Char) : Bool :=
  c = '월' ∨ c = '화' ∨ c = '수' ∨ c = '목' ∨ c = '금' ∨ c = '토' ∨ c = '일'

/-- Anchored matcher for `DATE_DAY_RE`: two 1-2 digit groups joined by a
dot, slash or dash, then optional whitespace and an optionally
parenthesised weekday character. -/
def dateDayAt (l : PyStr) : Option ((PyStr × PyStr × Char) × PyStr) :=
  d12 l (fun dd1 rest1 =>
    match rest1 with
    | s :: rest2 =>
      if s = '.' ∨ s = '/' ∨ s = '-' then
        d12 rest2 (fun dd2 rest3 =>
          match rest3.dropWhile isPySpace with
          | '(' :: rest4 =>
            match rest4 with
            | w :: rest5 =>
              if isWeekdayChar w then
                some ((dd1, dd2, w), match rest5 with | ')' :: r6 => r6 | _ => rest5)
              else none
            | [] => none
          | w :: rest4 =>
            if isWeekdayChar w then
              some ((dd1, dd2, w), match rest4 with | ')' :: r5 => r5 | _ => rest4)
            else none
          | [] => none)
      else none
    | [] => none)

/-- `DATE_DAY_RE.findall`: non-overlapping left-to-right scan. -/
def dateDayGo : Nat → PyStr → List (PyStr × PyStr × Char)
  | 0, _ => []
  | _ + 1, [] => []
  | fuel + 1, c :: rest =>
    match dateDayAt (c :: rest) with
    | some (g, after) => g :: dateDayGo fuel after
    | none => dateDayGo fuel rest

def dateDayFindall (l : PyStr) : List (PyStr × PyStr × Char) := dateDayGo (l.length + 1) l

/-- Anchored matcher for the month-day pattern of lines 187 and 233: two
1-2 digit groups joined by a dot, slash or dash. -/
def mmddAt (l : PyStr) : Option ((PyStr × PyStr) × PyStr) :=
  d12 l (fun dd1 rest1 =>
    match rest1 with
    | s :: rest2 =>
      if s = '.' ∨ s = '/' ∨ s = '-' then
        d12 rest2 (fun dd2 rest3 => some ((dd1, dd2), rest3))
      else none
    | [] => none)

def mmddGo : Nat → PyStr → List (PyStr × PyStr)
  | 0, _ => []
  | _ + 1, [] => []
  | fuel + 1, c :: rest =>
    match mmddAt (c :: rest) with
    | some (g, after) => g :: mmddGo fuel after
    | none => mmddGo fuel rest

def mmddFindall (l : PyStr) : List (PyStr × PyStr) := mmddGo (l.length + 1) l

/-- The `(?:\\s*/\\s*[월화수목금토일])+` unit collector of
`WEEKDAY_TOKEN_RE`, greedy, returning the weekday characters of the
consumed units and the rest of the input. -/
def wkdUnitsGo : Nat → PyStr → List Char × PyStr
  | 0, l => ([], l)
  | fuel + 1, l =>
    match l.dropWhile isPySpace with
    | '/' :: l2 =>
      match l2.dropWhile isPySpace with
      | w :: l3 =>
        if isWeekdayChar w then
          let p := wkdUnitsGo fuel l3
          (w :: p.1, p.2)
        else ([], l)
      | [] => ([], l)
    | _ => ([], l)

/-- All weekday characters of all `WEEKDAY_TOKEN_RE` matches in order, as
the loop on lines 196-198 collects them (each match contributes exactly its
weekday characters). -/
def wkdTokenGo : Nat → PyStr → List Char
  | 0, _ => []
  | _ + 1, [] => []
  | fuel + 1, c :: rest =>
    if isWeekdayChar c then
      match wkdUnitsGo rest.length rest with
      | ([], _) => wkdTokenGo fuel rest
      | (cs, after) => (c :: cs) ++ wkdTokenGo fuel after
    else wkdTokenGo fuel rest

def weekdayCharsOf (l : PyStr) : List Char := wkdTokenGo (l.length + 1) l

/-- The `(?:/[월화수목금토일])+` unit collector of `DAY_ONLY_RE` (no
whitespace allowed), returning the matched text. -/
def dayOnlyUnits : PyStr → PyStr × PyStr
  | '/' :: w :: rest =>
    if isWeekdayChar w then
      let p := dayOnlyUnits rest
      ('/' :: w :: p.1, p.2)
    else ([], '/' :: w :: rest)
  | l => ([], l)

/-- `DAY_ONLY_RE.search`: first match text, or none. -/
def dayOnlyGo : Nat → PyStr → Option PyStr
  | 0, _ => none
  | _ + 1, [] => none
  | fuel + 1, c :: rest =>
    if isWeekdayChar c then
      match dayOnlyUnits rest with
      | ([], _) => dayOnlyGo fuel rest
      | (cs, _) => some (c :: cs)
    else dayOnlyGo fuel rest

def dayOnlySearch (l : PyStr) : Option PyStr := dayOnlyGo (l.length + 1) l

/-- Whether `pat` occurs at the start of `l`. -/
def leadsWith : PyStr → PyStr → Bool
  | [], _ => true
  | _ :: _, [] => false
  | p :: ps, c :: cs => p = c ∧ leadsWith ps cs

/-- Whether `pat` occurs anywhere in `l` (substring search). -/
def containsSub : PyStr → PyStr → Bool
  | l, pat =>
    if leadsWith pat l then true
    else
      match l with
      | [] => false
      | _ :: rest => containsSub rest pat

/-- `HOLIDAY_RE.search` as a Boolean: `휴강|공휴일|대체휴일|행사|시험`. -/
def holidaySearch (l : PyStr) : Bool :=
  containsSub l (pys "휴강") ∨ containsSub l (pys "공휴일") ∨
  containsSub l (pys "대체휴일") ∨ containsSub l (pys "행사") ∨
  containsSub l (pys "시험")

def natToPy (n : Nat) : PyStr := (toString n).data

/-- Python format `{n:02d}`. -/
def pad2 (n : Nat) : PyStr := if n < 10 then '0' :: natToPy n else natToPy n

/-- `WEEKDAY_MAP` lookups: weekday character to number (Monday = 0). -/
def weekdayNum (c : Char) : Nat :=
  if c = '월' then 0 else if c = '화' then 1 else if c = '수' then 2
  else if c = '목' then 3 else if c = '금' then 4 else if c = '토' then 5 else 6

/-- The reverse lookup `weekday_rev` built on line 221. -/
def weekdayName : Nat → Char
  | 0 => '월' | 1 => '화' | 2 => '수' | 3 => '목' | 4 => '금' | 5 => '토' | _ => '일'

/-- `infer_lesson_datetime(week_info)` from `lessonplan_bot.py`
(lines 164-178); `todayYear` models `date.today().year`. -/
def infer_lesson_datetime (todayYear : Nat) (wi : WeekInfo) : PyStr :=
  let year := if wi.year = 0 then todayYear else wi.year
  let raw := wi.raw_text ++ pys " " ++ wi.details
  let parts := (dateDayFindall raw).map (fun g =>
    natToPy year ++ pys "." ++ pad2 (digitsToNat g.1) ++ pys "." ++
      pad2 (digitsToNat g.2.1) ++ pys "(" ++ [g.2.2] ++ pys ")")
  let result :=
    if parts ≠ [] then joinSep (pys ", ") (dedupKeepOrder parts)
    else
      match dayOnlySearch raw with
      | some hint => wi.date_range ++ pys " (" ++ hint ++ pys ")"
      | none => wi.date_range
  let result2 := if holidaySearch raw then result ++ pys " [휴강/행사 확인]" else result
  if result2 = [] then pys "일정 미확인" else result2

/-- `infer_class_dates_from_week(week_info)` from `lessonplan_bot.py`
(lines 181-225). `Except` models the `ValueError` that `datetime(...)` and
`end.replace(year=...)` can raise; `todayYear` models `date.today().year`. -/
def infer_class_dates_from_week (todayYear : Nat) (wi : WeekInfo) : Except PyErr PyStr :=
  let year := if wi.year = 0 then todayYear else wi.year
  let raw := wi.raw_text ++ pys " " ++ wi.details
  match mmddFindall wi.date_range with
  | (m1, d1) :: (m2, d2) :: _ =>
    match mkDatetime year (digitsToNat m1) (digitsToNat d1) with
    | Except.error e => Except.error e
    | Except.ok start =>
      match mkDatetime year (digitsToNat m2) (digitsToNat d2) with
      | Except.error e => Except.error e
      | Except.ok e0 =>
        match (if dateLtB e0 start then mkDatetime (e0.y + 1) e0.m e0.d
               else Except.ok e0) with
        | Except.error e => Except.error e
        | Except.ok endD =>
          let weekday_tokens := dedupKeepOrder (weekdayCharsOf raw)
          let target_days := (weekday_tokens.filter isWeekdayChar).map weekdayNum
          let explicit := (dateDayFindall raw).map (fun g =>
            natToPy (digitsToNat g.1) ++ pys "." ++ natToPy (digitsToNat g.2.1) ++
              pys "(" ++ [g.2.2] ++ pys ")")
          if explicit ≠ [] then
            let result := joinSep (pys ", ") (dedupKeepOrder explicit)
            Except.ok (if holidaySearch raw then result ++ pys " [휴강/행사 확인]"
              else result)
          else
            let ad := collectDates (toOrdinal endD + 1 - toOrdinal start) start endD
              target_days
            let all_dates := if ad = [] then
                (if start ≠ endD then [start, endD] else [start]) else ad
            let label := joinSep (pys ", ") (all_dates.map (fun dt =>
              natToPy dt.m ++ pys "." ++ natToPy dt.d ++ pys "(" ++
                [weekdayName (pyWeekday dt)] ++ pys ")"))
            Except.ok (if holidaySearch raw then label ++ pys " [휴강/행사 확인]"
              else label)
  | _ => Except.ok (infer_lesson_datetime todayYear wi)

/-- Modelled from claim C8's words: the calendar dates between 2.23 and
2.27 inclusive of the given year whose weekday is Tuesday (화) or Thursday
(목), each formatted `M.D(weekday)` and joined with `", "`. -/
def claimC8Dates (year : Nat) : PyStr :=
  joinSep (pys ", ")
    (((List.range' 23 5).filter (fun d =>
        pyWeekday ⟨year, 2, d⟩ = 1 ∨ pyWeekday ⟨year, 2, d⟩ = 3)).map (fun d =>
      pys "2." ++ natToPy d ++ pys "(" ++ [weekdayName (pyWeekday ⟨year, 2, d⟩)] ++
        pys ")"))

/-- One optional curriculum row (auxiliary CSV/XLSX input). -/
structure CurriculumRow where
  week_no : Option Int
  class_name : PyStr
  topic : PyStr
  objective : PyStr
  details : PyStr
deriving Repr, DecidableEq

def pyLower (l : PyStr) : PyStr := l.map Char.toLower

def pyUpper (l : PyStr) : PyStr := l.map Char.toUpper

/-- `suggest_topic_objective(...)` from `lessonplan_bot.py` (lines 228-271).
After binding `week_no` and `class_norm` (lines 229-231), the body (lines
233-271) is a duplicated copy of `infer_class_dates_from_week`'s body that
reads the names `dr`, `year` and `raw`; none of these is bound in this
function or at module level, so every call raises
`NameError: name 'dr' is not defined` at line 233, before any curriculum
row is consulted. -/
def suggest_topic_objective (wi : WeekInfo) (class_name subject : PyStr)
    (curriculum_rows : List CurriculumRow) : Except PyErr (PyStr × PyStr) :=
  let _rows := curriculum_rows
  let _week_no : Int := wi.week_no
  let _class_norm := pyLower (pyStrip class_name)
  let _subject := subject
  Except.error (PyErr.nameError "dr")

/-- Python dict insertion (later assignment to an existing key overwrites
in place). -/
def dinsert (m : List (PyStr × PyStr)) (k v : PyStr) : List (PyStr × PyStr) :=
  match m with
  | [] => [(k, v)]
  | (k0, v0) :: rest => if k0 = k then (k, v) :: rest else (k0, v0) :: dinsert rest k v

def dlookup (m : List (PyStr × PyStr)) (k : PyStr) : Option PyStr :=
  match m with
  | [] => none
  | (k0, v0) :: rest => if k0 = k then some v0 else dlookup rest k

/-- `extract_week_subsection_codes(week_info)` (lines 110-123). -/
def extract_week_subsection_codes (wi : WeekInfo) : List PyStr :=
  let search_space := wi.raw_text ++ pys " " ++ wi.details ++ pys " " ++
    joinSep (pys " ") wi.events
  dedupKeepOrder ((subsectionFindall search_space).map pyUpper)

/-- `suggest_topic_objective_from_syllabus(...)` (lines 274-289): a total
function, returning `(lesson_topic, theme_objective)`. -/
def suggest_topic_objective_from_syllabus (wi : WeekInfo) (subject : PyStr)
    (outline_map : List (PyStr × PyStr)) : PyStr × PyStr :=
  let om := outline_map.foldl (fun acc kv => dinsert acc (pyUpper kv.1) kv.2) []
  let codes := extract_week_subsection_codes wi
  if codes ≠ [] then
    let topics := codes.map (fun code => (dlookup om code).getD code)
    let lesson_topic := joinSep (pys ", ") topics
    (lesson_topic, lesson_topic ++ pys " 관련 핵심 개념을 이해하고 활동으로 적용한다.")
  else
    let raw := pyStrip wi.details
    let brief := if raw ≠ [] then raw.take 60 else pys "핵심 단원"
    (subject ++ pys " - " ++ brief,
     brief ++ pys "를 바탕으로 핵심 개념을 이해하고 활동으로 적용한다.")

/-- A row whose four fields are fixed points of `pyStrip`. -/
def StrippedRow (r : LessonRow) : Prop :=
  pyStrip r.phase = r.phase ∧ pyStrip r.time = r.time ∧
  pyStrip r.content = r.content ∧ pyStrip r.remarks = r.remarks

/-- A row with at least one non-blank field. -/
def SomeField (r : LessonRow) : Prop :=
  ¬(r.phase = [] ∧ r.time = [] ∧ r.content = [] ∧ r.remarks = [])

/-- Invariant of the `normalize_table_rows` accumulator: all fields are
stripped, every row has a non-blank field, and every row except possibly
the first has non-empty content. -/
def GoodList (l : List LessonRow) : Prop :=
  (∀ r ∈ l, StrippedRow r ∧ SomeField r) ∧ ∀ r ∈ l.drop 1, r.content ≠ []

/-! ### Helper lemmas about the string model -/

theorem dropWhile_dropWhile (p : Char → Bool) (l : PyStr) :
    List.dropWhile p (List.dropWhile p l) = List.dropWhile p l := by
  induction l with
  | nil => rfl
  | cons c t ih =>
    by_cases h : p c
    · rw [List.dropWhile_cons_of_pos h]; exact ih
    · rw [List.dropWhile_cons_of_neg h, List.dropWhile_cons_of_neg h]

theorem lstrip_cons_of_neg {c : Char} (t : PyStr) (h : ¬ isPySpace c) :
    lstripCore (c :: t) = c :: t :=
  List.dropWhile_cons_of_neg h

theorem rstrip_cons_of_neg {c : Char} (t : PyStr) (h : ¬ isPySpace c) :
    rstripCore (c :: t) = c :: rstripCore t := by
  unfold rstripCore
  rw [List.reverse_cons, List.dropWhile_append]
  by_cases h2 : (t.reverse.dropWhile isPySpace).isEmpty
  · rw [if_pos h2, List.dropWhile_cons_of_neg h]
    rw [List.isEmpty_iff] at h2
    rw [h2]
    rfl
  · rw [if_neg h2, List.reverse_append]
    rfl

theorem lstrip_idem (l : PyStr) : lstripCore (lstripCore l) = lstripCore l :=
  dropWhile_dropWhile _ l

theorem rstrip_idem (l : PyStr) : rstripCore (rstripCore l) = rstripCore l := by
  unfold rstripCore
  rw [List.reverse_reverse, dropWhile_dropWhile]

theorem lstrip_head_not {l : PyStr} {c : Char} {t : PyStr}
    (h : lstripCore l = c :: t) : isPySpace c = false := by
  have hne : List.dropWhile isPySpace l ≠ [] := by
    unfold lstripCore at h; simp [h]
  have h2 := List.head_dropWhile_not isPySpace l hne
  have h3 : (List.dropWhile isPySpace l).head hne = c := by
    unfold lstripCore at h; simp [h]
  rwa [h3] at h2

theorem lstrip_rstrip_lstrip (l : PyStr) :
    lstripCore (rstripCore (lstripCore l)) = rstripCore (lstripCore l) := by
  cases h : lstripCore l with
  | nil => rfl
  | cons c t =>
    have hc := lstrip_head_not h
    rw [rstrip_cons_of_neg t (by simp [hc]), lstrip_cons_of_neg _ (by simp [hc])]

theorem strip_idem (l : PyStr) : pyStrip (pyStrip l) = pyStrip l := by
  unfold pyStrip
  rw [lstrip_rstrip_lstrip, rstrip_idem]

theorem strip_eq_nil_all_space {l : PyStr} (h : pyStrip l = []) :
    ∀ c ∈ l, isPySpace c = true := by
  unfold pyStrip rstripCore at h
  have h1 : (lstripCore l).reverse.dropWhile isPySpace = [] := by
    have := congrArg List.reverse h
    rwa [List.reverse_reverse, List.reverse_nil] at this
  rw [List.dropWhile_eq_nil_iff] at h1
  have h2 : ∀ c ∈ lstripCore l, isPySpace c = true := by
    intro c hc
    exact h1 c (List.mem_reverse.mpr hc)
  intro c hc
  rcases List.mem_append.mp ((List.takeWhile_append_dropWhile isPySpace l) ▸ hc) with hIn | hIn
  · exact List.mem_takeWhile_imp hIn
  · exact h2 c hIn

theorem strip_ne_nil {l : PyStr} (c : Char) (hc : c ∈ l) (hsp : ¬ isPySpace c) :
    pyStrip l ≠ [] := by
  intro h
  exact hsp (strip_eq_nil_all_space h c hc)

theorem strip_head_not_space {l : PyStr} {c : Char} {t : PyStr}
    (h : pyStrip l = c :: t) : isPySpace c = false := by
  unfold pyStrip at h
  cases hy : lstripCore l with
  | nil => rw [hy] at h; simp [rstripCore] at h
  | cons a s =>
    have ha := lstrip_head_not hy
    rw [hy, rstrip_cons_of_neg s (by simp [ha])] at h
    injection h with hac _
    rw [← hac]
    exact ha

theorem lstrip_eq_self {l : PyStr}
    (h : ∀ c, l.head? = some c → isPySpace c = false) : lstripCore l = l := by
  cases l with
  | nil => rfl
  | cons c t => exact List.dropWhile_cons_of_neg (by simp [h c rfl])

theorem rstrip_eq_self {l : PyStr}
    (h : ∀ c, l.getLast? = some c → isPySpace c = false) : rstripCore l = l := by
  cases hr : l.reverse with
  | nil =>
    have hl : l = [] := by simpa using congrArg List.reverse hr
    rw [hl]
    rfl
  | cons a s =>
    have hl : l = s.reverse ++ [a] := by simpa using congrArg List.reverse hr
    have hla : l.getLast? = some a := by
      rw [hl, List.getLast?_append_of_ne_nil _ (by simp)]
      rfl
    have ha := h a hla
    unfold rstripCore
    rw [hr, List.dropWhile_cons_of_neg (by simp [ha]), ← hr, List.reverse_reverse]

theorem strip_eq_self_of {l : PyStr}
    (h1 : ∀ c, l.head? = some c → isPySpace c = false)
    (h2 : ∀ c, l.getLast? = some c → isPySpace c = false) :
    pyStrip l = l := by
  unfold pyStrip
  rw [lstrip_eq_self h1, rstrip_eq_self h2]

/-! ### Split and join lemmas -/

theorem splitPipeGo_zero (l : PyStr) (acc : PyStr) :
    splitPipeGo 0 l acc = [acc.reverse ++ l] := by
  cases l with
  | nil => simp [splitPipeGo]
  | cons c t => rfl

theorem splitPipeGo_succ (n : Nat) (l : PyStr) (acc : PyStr) :
    splitPipeGo (n + 1) l acc =
      match splitAtPipe l with
      | none => [acc.reverse ++ l]
      | some (a, r) => (acc.reverse ++ a) :: splitPipeGo n r [] := by
  induction l generalizing acc with
  | nil => simp [splitPipeGo, splitAtPipe]
  | cons c t ih =>
    by_cases hc : c = '|'
    · subst hc
      simp [splitPipeGo, splitAtPipe]
    · rw [show splitPipeGo (n + 1) (c :: t) acc = splitPipeGo (n + 1) t (c :: acc) by
        simp [splitPipeGo, hc]]
      rw [ih]
      cases hsp : splitAtPipe t with
      | none => simp [splitAtPipe, hc, hsp]
      | some p =>
        obtain ⟨a, r⟩ := p
        simp [splitAtPipe, hc, hsp]

theorem splitPipe3_eq_claimSplit4 (l : PyStr) : splitPipe3 l = claimSplit4 l := by
  unfold splitPipe3 claimSplit4
  rw [splitPipeGo_succ]
  cases h1 : splitAtPipe l with
  | none => rfl
  | some p1 =>
    obtain ⟨a, r1⟩ := p1
    simp only [List.reverse_nil, List.nil_append]
    rw [splitPipeGo_succ]
    cases h2 : splitAtPipe r1 with
    | none => rfl
    | some p2 =>
      obtain ⟨b, r2⟩ := p2
      simp only [List.reverse_nil, List.nil_append]
      rw [splitPipeGo_succ]
      cases h3 : splitAtPipe r2 with
      | none => rfl
      | some p3 =>
        obtain ⟨c, r3⟩ := p3
        simp only [List.reverse_nil, List.nil_append]
        rw [splitPipeGo_zero]
        rfl

theorem updateLast_eq_join (l : List LessonRow) (line : PyStr) :
    updateLastContent l line = lastContentJoin l line := by
  induction l with
  | nil => rfl
  | cons r rs ih =>
    cases rs with
    | nil => simp [updateLastContent, lastContentJoin, pys]
    | cons r2 rs2 =>
      rw [show updateLastContent (r :: r2 :: rs2) line =
            r :: updateLastContent (r2 :: rs2) line from rfl,
          show lastContentJoin (r :: r2 :: rs2) line =
            r :: lastContentJoin (r2 :: rs2) line from rfl, ih]

theorem contains_iff_count_pos (l : PyStr) (c : Char) :
    l.contains c = true ↔ 1 ≤ List.count c l := by
  constructor
  · intro h
    exact List.count_pos_iff.mpr (List.elem_iff.mp h)
  · intro h
    exact List.elem_iff.mpr (List.count_pos_iff.mp h)

theorem parseGo_eq_amend (lines : List PyStr) (rows : List LessonRow) :
    parseGo lines rows = parseGoAmendC5 lines rows := by
  induction lines generalizing rows with
  | nil => rfl
  | cons raw rest ih =>
    simp only [parseGo, parseGoAmendC5]
    by_cases h0 : pyStrip raw = []
    · rw [if_pos h0, if_pos h0]
      exact ih rows
    · rw [if_neg h0, if_neg h0]
      by_cases hc : (pyStrip raw).contains '|'
      · have hcount : 1 ≤ List.count '|' (pyStrip raw) := (contains_iff_count_pos _ _).mp hc
        rw [if_pos hcount, if_neg (by rw [hc]; simp), splitPipe3_eq_claimSplit4]
        exact ih _
      · have hcount : ¬ 1 ≤ List.count '|' (pyStrip raw) := by
          intro h
          exact hc ((contains_iff_count_pos _ _).mpr h)
        rw [if_neg hcount, if_pos (by simp [Bool.not_eq_true] at hc; simp [hc])]
        cases rows with
        | nil => exact ih _
        | cons r rs =>
          rw [updateLast_eq_join]
          exact ih _

/-! ### Normalisation invariants -/

theorem joinSep_cons (sep x : PyStr) (xs : List PyStr) :
    ∃ t, joinSep sep (x :: xs) = x ++ t := by
  cases xs with
  | nil => exact ⟨[], by simp [joinSep]⟩
  | cons y ys => exact ⟨sep ++ joinSep sep (y :: ys), by simp [joinSep]⟩

theorem someField_of_content {r : LessonRow} (h : r.content ≠ []) : SomeField r := by
  intro hall
  exact h hall.2.2.1

theorem rowAddon_has_nonspace {a b c : PyStr}
    (ha : pyStrip a = a) (hb : pyStrip b = b) (hc : pyStrip c = c)
    (hne : rowAddon a b c ≠ []) : ∃ x ∈ rowAddon a b c, isPySpace x = false := by
  unfold rowAddon at *
  cases hf : [a, b, c].filter (fun v => v ≠ []) with
  | nil => rw [hf] at hne; simp [joinSep] at hne
  | cons x xs =>
    have hx : x ∈ [a, b, c].filter (fun v => v ≠ []) := by
      rw [hf]; exact List.mem_cons_self _ _
    have hxne : x ≠ [] := by simpa using List.of_mem_filter hx
    have hxmem : x ∈ [a, b, c] := List.mem_of_mem_filter hx
    have hxs : pyStrip x = x := by
      simp only [List.mem_cons, List.not_mem_nil, or_false] at hxmem
      rcases hxmem with h | h | h
      · rw [h]; exact ha
      · rw [h]; exact hb
      · rw [h]; exact hc
    obtain ⟨d, ds, hd⟩ : ∃ d ds, x = d :: ds := by
      cases x with
      | nil => exact absurd rfl hxne
      | cons d ds => exact ⟨d, ds, rfl⟩
    have hstr : pyStrip x = d :: ds := by rw [hxs, hd]
    have hdns := strip_head_not_space hstr
    obtain ⟨t, ht⟩ := joinSep_cons (pys " | ") x xs
    rw [ht]
    exact ⟨d, by rw [hd]; simp, hdns⟩

theorem updateLast_all (l : List LessonRow) (addon : PyStr)
    (h1 : ∀ r ∈ l, StrippedRow r) (h2 : ∀ r ∈ l, r.content ≠ [])
    (hsp : ∃ c ∈ addon, isPySpace c = false) :
    (∀ r ∈ updateLastContent l addon, StrippedRow r) ∧
    (∀ r ∈ updateLastContent l addon, r.content ≠ []) := by
  induction l with
  | nil => simp [updateLastContent]
  | cons r rs ih =>
    cases rs with
    | nil =>
      obtain ⟨c, hcmem, hcns⟩ := hsp
      constructor
      · intro x hx
        simp only [updateLastContent, List.mem_singleton] at hx
        rw [hx]
        obtain ⟨hp, ht, _, hr⟩ := h1 r (by simp)
        exact ⟨hp, ht, strip_idem _, hr⟩
      · intro x hx
        simp only [updateLastContent, List.mem_singleton] at hx
        rw [hx]
        exact strip_ne_nil c (by simp [hcmem]) (by simp [hcns])
    | cons r2 rs2 =>
      have hrec := ih (fun x hx => h1 x (List.mem_cons_of_mem _ hx))
        (fun x hx => h2 x (List.mem_cons_of_mem _ hx))
      rw [show updateLastContent (r :: r2 :: rs2) addon =
            r :: updateLastContent (r2 :: rs2) addon from rfl]
      constructor
      · intro x hx
        rcases List.mem_cons.mp hx with h | h
        · rw [h]; exact h1 r (by simp)
        · exact hrec.1 x h
      · intro x hx
        rcases List.mem_cons.mp hx with h | h
        · rw [h]; exact h2 r (by simp)
        · exact hrec.2 x h

theorem updateLast_good {l : List LessonRow} {addon : PyStr}
    (hg : GoodList l) (hne : l ≠ [])
    (hsp : ∃ c ∈ addon, isPySpace c = false) :
    GoodList (updateLastContent l addon) := by
  cases l with
  | nil => exact absurd rfl hne
  | cons r rs =>
    cases rs with
    | nil =>
      obtain ⟨c, hcmem, hcns⟩ := hsp
      refine ⟨?_, ?_⟩
      · intro x hx
        simp only [updateLastContent, List.mem_singleton] at hx
        rw [hx]
        obtain ⟨⟨hp, ht, _, hr⟩, _⟩ := hg.1 r (by simp)
        have hcon : pyStrip (r.content ++ pys "\n" ++ addon) ≠ [] :=
          strip_ne_nil c (by simp [hcmem]) (by simp [hcns])
        exact ⟨⟨hp, ht, strip_idem _, hr⟩, someField_of_content hcon⟩
      · intro x hx
        simp [updateLastContent] at hx
    | cons r2 rs2 =>
      have htail1 : ∀ x ∈ r2 :: rs2, StrippedRow x :=
        fun x hx => (hg.1 x (List.mem_cons_of_mem _ hx)).1
      have htail2 : ∀ x ∈ r2 :: rs2, x.content ≠ [] := by
        intro x hx
        exact hg.2 x (by simpa using hx)
      have hall := updateLast_all (r2 :: rs2) addon htail1 htail2 hsp
      rw [show updateLastContent (r :: r2 :: rs2) addon =
            r :: updateLastContent (r2 :: rs2) addon from rfl]
      refine ⟨?_, ?_⟩
      · intro x hx
        rcases List.mem_cons.mp hx with h | h
        · rw [h]; exact hg.1 r (by simp)
        · exact ⟨hall.1 x h, someField_of_content (hall.2 x h)⟩
      · intro x hx
        simp only [List.drop_one, List.tail_cons] at hx
        exact hall.2 x hx

theorem good_append_one {acc : List LessonRow} {row : LessonRow}
    (hg : GoodList acc) (hst : StrippedRow row) (hsf : SomeField row)
    (hcontent : acc = [] ∨ row.content ≠ []) : GoodList (acc ++ [row]) := by
  refine ⟨?_, ?_⟩
  · intro x hx
    rcases List.mem_append.mp hx with h | h
    · exact hg.1 x h
    · rw [List.mem_singleton.mp h]; exact ⟨hst, hsf⟩
  · intro x hx
    cases acc with
    | nil => simp at hx
    | cons a as =>
      rcases hcontent with h | h
      · exact absurd h (by simp)
      · simp only [List.cons_append, List.drop_one, List.tail_cons] at hx
        rcases List.mem_append.mp hx with h2 | h2
        · exact hg.2 x (by simpa using h2)
        · rw [List.mem_singleton.mp h2]; exact h

theorem normGo_good : ∀ (rows acc : List LessonRow),
    GoodList acc → GoodList (normGo rows acc) := by
  intro rows
  induction rows with
  | nil => intro acc hg; exact hg
  | cons row rest ih =>
    intro acc hg
    simp only [normGo]
    by_cases h1 : pyStrip row.phase = [] ∧ pyStrip row.time = [] ∧
        pyStrip row.content = [] ∧ pyStrip row.remarks = []
    · rw [if_pos h1]; exact ih acc hg
    · rw [if_neg h1]
      by_cases h2 : pyStrip row.content = [] ∧ acc ≠ []
      · rw [if_pos h2]
        by_cases h3 : rowAddon (pyStrip row.phase) (pyStrip row.time) (pyStrip row.remarks) = []
        · rw [if_neg (by simp [h3])]; exact ih acc hg
        · rw [if_pos h3]
          exact ih _ (updateLast_good hg h2.2
            (rowAddon_has_nonspace (strip_idem _) (strip_idem _) (strip_idem _) h3))
      · rw [if_neg h2]
        refine ih _ (good_append_one hg ⟨strip_idem _, strip_idem _, strip_idem _, strip_idem _⟩ h1 ?_)
        by_cases hacc : acc = []
        · exact Or.inl hacc
        · refine Or.inr ?_
          intro hc
          exact h2 ⟨hc, hacc⟩

theorem normGo_all_content : ∀ (l acc : List LessonRow),
    (∀ r ∈ l, StrippedRow r ∧ SomeField r ∧ r.content ≠ []) →
    normGo l acc = acc ++ l := by
  intro l
  induction l with
  | nil => intro acc _; simp [normGo]
  | cons r rest ih =>
    intro acc hall
    obtain ⟨⟨hp, ht, hc, hr⟩, hsf, hcne⟩ := hall r (by simp)
    simp only [normGo]
    rw [hp, ht, hc, hr]
    rw [if_neg hsf, if_neg (by intro h; exact hcne h.1)]
    rw [ih _ (fun x hx => hall x (List.mem_cons_of_mem _ hx))]
    simp

/-! ### Claim theorems for the lesson-row table functions -/

/-- C3 counterexample: the spec says `normalize(rows)` never returns a row
with empty `content`, but a leading row with blank content and a non-blank
`phase`/`time` is emitted unchanged because there is no previous row to
merge into. -/
theorem normalize_empty_content_cex :
    ¬ ∀ r ∈ normalize_table_rows [⟨pys "도입", pys "10분", [], []⟩], r.content ≠ [] := by
  decide

/-- C3 (amended): every row returned by `normalize_table_rows` except
possibly the first has non-empty content, all-blank rows are dropped (every
returned row has some non-blank field), and a blank-content row is merged
into the previous row only when a previous row exists. -/
theorem normalize_rows_content_amended (rows : List LessonRow) :
    (∀ r ∈ (normalize_table_rows rows).drop 1, r.content ≠ []) ∧
    ∀ r ∈ normalize_table_rows rows, SomeField r := by
  have h := normGo_good rows [] (by constructor <;> simp)
  exact ⟨h.2, fun r hr => (h.1 r hr).2⟩

/-- Witness for C3 (amended) at a concrete input. -/
theorem normalize_rows_content_amended_witness :
    (⟨pys "d", [], pys "e", []⟩ : LessonRow).content ≠ [] :=
  (normalize_rows_content_amended
    [⟨pys "a", [], pys "c", []⟩, ⟨pys "d", [], pys "e", []⟩]).1 _ (by decide)

/-- C5 counterexample: the claim says a line with fewer than 3 pipe
separators is treated as a continuation (or a new content-only row), but the
code splits any line containing at least one pipe; on the single line
`"a|b"` the code produces phase `"a"`, time `"b"`, while the claimed
behaviour would produce a row whose content is the whole line. -/
theorem parse_rows_claim_c5_cex :
    parse_table_rows_text (pys "a|b") = [⟨pys "a", pys "b", [], []⟩] ∧
    normalize_table_rows (parseGoClaimC5 (pySplitlines (pys "a|b")) []) =
      [⟨[], [], pys "a|b", []⟩] ∧
    parse_table_rows_text (pys "a|b") ≠
      normalize_table_rows (parseGoClaimC5 (pySplitlines (pys "a|b")) []) := by
  refine ⟨by decide, by decide, by decide⟩

/-- C5 (amended): for every input text, `parse_table_rows_text` processes
each non-blank line as follows: a line containing at least ONE pipe
separator is split on its first three pipes into up to 4 trimmed fields
padded to 4 with empty strings; any other line is a continuation appended
(newline-joined, re-trimmed) to the previous row's content, or becomes a
new row with empty phase/time/remarks if there is no previous row; a final
normalisation pass is then applied. -/
theorem parse_rows_amended_c5 (text : PyStr) :
    parse_table_rows_text text =
      normalize_table_rows (parseGoAmendC5 (pySplitlines text) []) := by
  unfold parse_table_rows_text
  rw [parseGo_eq_amend]

theorem normalize_idem_core (rows : List LessonRow) :
    normalize_table_rows (normalize_table_rows rows) = normalize_table_rows rows := by
  have hg : GoodList (normalize_table_rows rows) := normGo_good rows [] (by constructor <;> simp)
  cases hl : normalize_table_rows rows with
  | nil => simp [normalize_table_rows, normGo]
  | cons r rest =>
    rw [hl] at hg
    obtain ⟨⟨hp, ht, hc, hr⟩, hsf⟩ := hg.1 r (by simp)
    have hrest : ∀ x ∈ rest, StrippedRow x ∧ SomeField x ∧ x.content ≠ [] := by
      intro x hx
      obtain ⟨hst, hsf2⟩ := hg.1 x (List.mem_cons_of_mem _ hx)
      exact ⟨hst, hsf2, hg.2 x (by simpa using hx)⟩
    show normGo (r :: rest) [] = r :: rest
    simp only [normGo]
    rw [hp, ht, hc, hr]
    rw [if_neg hsf, if_neg (by intro h; exact h.2 rfl)]
    rw [normGo_all_content rest _ hrest]
    simp

/-- C10: `normalize_table_rows` is idempotent, and in particular the output
of `parse_table_rows_text` (which ends with a normalisation pass) is
unchanged by a further application of `normalize_table_rows`. -/
theorem normalize_table_rows_idem :
    (∀ rows, normalize_table_rows (normalize_table_rows rows) = normalize_table_rows rows) ∧
    ∀ text, normalize_table_rows (parse_table_rows_text text) = parse_table_rows_text text :=
  ⟨normalize_idem_core, fun _ => normalize_idem_core _⟩

/-! ### Splitlines lemmas -/

theorem slGo_no_break : ∀ (a : PyStr) (acc : PyStr), a ≠ [] →
    (∀ c ∈ a, isLineBreak c = false) → slGo a acc = [acc.reverse ++ a] := by
  intro a
  induction a with
  | nil => intro acc h _; exact absurd rfl h
  | cons x xs ih =>
    intro acc _ hbf
    have hx : isLineBreak x = false := hbf x (by simp)
    cases xs with
    | nil => simp [slGo, hx]
    | cons y ys =>
      have hxr : ¬(x = '\r' ∧ y = '\n') := by
        intro h
        rw [h.1] at hx
        simp [isLineBreak] at hx
      rw [show slGo (x :: y :: ys) acc = slGo (y :: ys) (x :: acc) by
        simp [slGo, hxr, hx]]
      rw [ih (x :: acc) (by simp) (fun c hc => hbf c (by simp [hc]))]
      simp

theorem slGo_append_nl (b : PyStr) (hb : b ≠ []) : ∀ (a : PyStr) (acc : PyStr),
    (∀ c ∈ a, isLineBreak c = false) →
    slGo (a ++ '\n' :: b) acc = (acc.reverse ++ a) :: slGo b [] := by
  intro a
  induction a with
  | nil =>
    intro acc _
    cases b with
    | nil => exact absurd rfl hb
    | cons x bs => simp +decide [slGo]
  | cons x xs ih =>
    intro acc ha
    have hx : isLineBreak x = false := ha x (by simp)
    have hxr : x ≠ '\r' := by
      intro h
      rw [h] at hx
      simp [isLineBreak] at hx
    cases hxs : xs ++ '\n' :: b with
    | nil => simp at hxs
    | cons d rest =>
      rw [List.cons_append, hxs]
      rw [show slGo (x :: d :: rest) acc = slGo (d :: rest) (x :: acc) by
        simp [slGo, hxr, hx]]
      rw [← hxs, ih (x :: acc) (fun c hc => ha c (by simp [hc]))]
      simp

theorem splitlines_append_nl {a b : PyStr} (ha : ∀ c ∈ a, isLineBreak c = false)
    (hb : b ≠ []) :
    pySplitlines (a ++ '\n' :: b) = a :: pySplitlines b := by
  have h1 : pySplitlines (a ++ '\n' :: b) = slGo (a ++ '\n' :: b) [] := by
    cases hx : a ++ '\n' :: b with
    | nil => simp at hx
    | cons c t => rw [← hx]; rw [hx]; rfl
  have h2 : pySplitlines b = slGo b [] := by
    cases hx : b with
    | nil => exact absurd hx hb
    | cons c t => rw [← hx]; rw [hx]; rfl
  rw [h1, h2, slGo_append_nl b hb a [] ha]
  simp

theorem splitlines_no_break {a : PyStr} (ha : ∀ c ∈ a, isLineBreak c = false)
    (hne : a ≠ []) : pySplitlines a = [a] := by
  have h1 : pySplitlines a = slGo a [] := by
    cases hx : a with
    | nil => exact absurd hx hne
    | cons c t => rw [← hx]; rw [hx]; rfl
  rw [h1, slGo_no_break a [] hne ha]
  simp

theorem breakFree_append {a b : PyStr} (ha : ∀ c ∈ a, isLineBreak c = false)
    (hb : ∀ c ∈ b, isLineBreak c = false) : ∀ c ∈ a ++ b, isLineBreak c = false := by
  intro c hc
  rcases List.mem_append.mp hc with h | h
  · exact ha c h
  · exact hb c h

theorem generate_splitlines (wi : WeekInfo) (note : PyStr) (prayer : Bool)
    (h1 : ∀ c ∈ developSeed wi, isLineBreak c = false)
    (h2 : ∀ c ∈ note, isLineBreak c = false) :
    pySplitlines (generate_lesson_table_rows_text wi note prayer) =
      [pys "도입|10분|" ++ (if prayer then pys "기도 및 출석 확인, 지난 시간 복습"
          else pys "출석 확인, 지난 시간 복습") ++ pys "|집중 유도",
       pys "전개|25분|" ++ developSeed wi ++ pys " 설명 및 활동",
       pys "- 메모: " ++ (if note = [] then pys "개념 확인 활동" else note) ++ pys "|질의응답",
       pys "정리|5분|형성평가, 과제 안내, 다음 시간 예고|마무리"] := by
  have hintro : ∀ c ∈ (if prayer then pys "기도 및 출석 확인, 지난 시간 복습"
      else pys "출석 확인, 지난 시간 복습"), isLineBreak c = false := by
    cases prayer <;> decide
  have hnote : ∀ c ∈ (if note = [] then pys "개념 확인 활동" else note),
      isLineBreak c = false := by
    by_cases hn : note = []
    · rw [if_pos hn]; decide
    · rw [if_neg hn]; exact h2
  have hT : generate_lesson_table_rows_text wi note prayer =
      (pys "도입|10분|" ++ (if prayer then pys "기도 및 출석 확인, 지난 시간 복습"
          else pys "출석 확인, 지난 시간 복습") ++ pys "|집중 유도") ++ '\n' ::
      ((pys "전개|25분|" ++ developSeed wi ++ pys " 설명 및 활동") ++ '\n' ::
      ((pys "- 메모: " ++ (if note = [] then pys "개념 확인 활동" else note) ++
          pys "|질의응답") ++ '\n' ::
      pys "정리|5분|형성평가, 과제 안내, 다음 시간 예고|마무리")) := by
    unfold generate_lesson_table_rows_text
    rw [show pys "|집중 유도\n전개|25분|" = pys "|집중 유도" ++ '\n' :: pys "전개|25분|" from rfl]
    rw [show pys " 설명 및 활동\n- 메모: " =
      pys " 설명 및 활동" ++ '\n' :: pys "- 메모: " from rfl]
    rw [show pys "|질의응답\n정리|5분|형성평가, 과제 안내, 다음 시간 예고|마무리" =
      pys "|질의응답" ++ '\n' :: pys "정리|5분|형성평가, 과제 안내, 다음 시간 예고|마무리" from rfl]
    simp [List.append_assoc, List.cons_append]
  rw [hT]
  rw [splitlines_append_nl (breakFree_append (breakFree_append (by decide) hintro)
    (by decide)) (by simp)]
  rw [splitlines_append_nl (breakFree_append (breakFree_append (by decide) h1)
    (by decide)) (by simp)]
  rw [splitlines_append_nl (breakFree_append (breakFree_append (by decide) hnote)
    (by decide)) (by decide)]
  rw [@splitlines_no_break (pys "정리|5분|형성평가, 과제 안내, 다음 시간 예고|마무리")
    (by decide) (by decide)]

/-! ### Symbolic evaluation lemmas for the table parser -/

theorem splitPipeGo_skip : ∀ (x : PyStr), (∀ c ∈ x, c ≠ '|') →
    ∀ (n : Nat) (l acc : PyStr),
    splitPipeGo n (x ++ l) acc = splitPipeGo n l (x.reverse ++ acc) := by
  intro x
  induction x with
  | nil => intro _ n l acc; simp
  | cons c cs ih =>
    intro hx n l acc
    have hc : c ≠ '|' := hx c (by simp)
    cases n with
    | zero =>
      rw [splitPipeGo_zero, splitPipeGo_zero]
      simp
    | succ m =>
      rw [show splitPipeGo (m + 1) ((c :: cs) ++ l) acc =
            splitPipeGo (m + 1) (cs ++ l) (c :: acc) by simp [splitPipeGo, hc]]
      rw [ih (fun d hd => hx d (by simp [hd])) (m + 1) l (c :: acc)]
      simp

theorem splitPipeGo_pipe (n : Nat) (l acc : PyStr) :
    splitPipeGo (n + 1) ('|' :: l) acc = acc.reverse :: splitPipeGo n l [] := by
  simp [splitPipeGo]

theorem splitPipeGo_no_pipe (x : PyStr) (hx : ∀ c ∈ x, c ≠ '|') (n : Nat) (acc : PyStr) :
    splitPipeGo n x acc = [acc.reverse ++ x] := by
  have h := splitPipeGo_skip x hx n [] acc
  rw [List.append_nil] at h
  rw [h, show splitPipeGo n [] (x.reverse ++ acc) = [(x.reverse ++ acc).reverse] from
    by cases n <;> rfl]
  simp

theorem parseGo_step_pipe {raw : PyStr} (rest : List PyStr) (rows : List LessonRow)
    {p1 p2 p3 p4 : PyStr}
    (hst : pyStrip raw = raw) (hne : raw ≠ []) (hc : raw.contains '|' = true)
    (hsplit : padTo4 ((splitPipe3 raw).map pyStrip) = [p1, p2, p3, p4]) :
    parseGo (raw :: rest) rows = parseGo rest (rows ++ [⟨p1, p2, p3, p4⟩]) := by
  simp only [parseGo]
  rw [hst, if_neg hne, if_neg (by rw [hc]; simp), hsplit]
  rfl

theorem normGo_step_keep {row : LessonRow} (rest repaired : List LessonRow)
    (hst : StrippedRow row) (hsf : SomeField row)
    (hcr : ¬(row.content = [] ∧ repaired ≠ [])) :
    normGo (row :: rest) repaired = normGo rest (repaired ++ [row]) := by
  simp only [normGo]
  rw [hst.1, hst.2.1, hst.2.2.1, hst.2.2.2, if_neg hsf, if_neg hcr]

theorem normGo_step_merge {row : LessonRow} (rest repaired : List LessonRow)
    (hst : StrippedRow row) (hsf : SomeField row) (hc : row.content = [])
    (hrep : repaired ≠ [])
    (hane : rowAddon row.phase row.time row.remarks ≠ []) :
    normGo (row :: rest) repaired =
      normGo rest (updateLastContent repaired (rowAddon row.phase row.time row.remarks)) := by
  simp only [normGo]
  rw [hst.1, hst.2.1, hst.2.2.1, hst.2.2.2, if_neg hsf, if_pos ⟨hc, hrep⟩, if_pos hane]

theorem split_line2 (seed : PyStr) (hseed : ∀ c ∈ seed, c ≠ '|') :
    padTo4 ((splitPipe3 (pys "전개|25분|" ++ seed ++ pys " 설명 및 활동")).map pyStrip) =
      [pys "전개", pys "25분", pyStrip (seed ++ pys " 설명 및 활동"), []] := by
  have hconst : ∀ c ∈ pys " 설명 및 활동", c ≠ '|' := by decide
  have hx : ∀ c ∈ seed ++ pys " 설명 및 활동", c ≠ '|' := by
    intro c hc
    rcases List.mem_append.mp hc with h | h
    · exact hseed c h
    · exact hconst c h
  unfold splitPipe3
  rw [List.append_assoc]
  rw [show pys "전개|25분|" ++ (seed ++ pys " 설명 및 활동") =
    pys "전개" ++ '|' :: (pys "25분" ++ '|' :: (seed ++ pys " 설명 및 활동")) from rfl]
  rw [splitPipeGo_skip (pys "전개") (by decide) 3]
  rw [splitPipeGo_pipe]
  rw [splitPipeGo_skip (pys "25분") (by decide) 2]
  rw [splitPipeGo_pipe]
  rw [splitPipeGo_no_pipe _ hx 1]
  simp only [List.append_nil, List.reverse_reverse, List.nil_append, List.map_cons,
    List.map_nil, padTo4]
  simp only [List.reverse_nil, List.nil_append]
  rw [show pyStrip (pys "전개") = pys "전개" from by decide,
    show pyStrip (pys "25분") = pys "25분" from by decide]
  rfl

theorem split_line3 (memo : PyStr) (hmemo : ∀ c ∈ memo, c ≠ '|') :
    padTo4 ((splitPipe3 (pys "- 메모: " ++ memo ++ pys "|질의응답")).map pyStrip) =
      [pyStrip (pys "- 메모: " ++ memo), pys "질의응답", [], []] := by
  have hx : ∀ c ∈ pys "- 메모: " ++ memo, c ≠ '|' := by
    intro c hc
    rcases List.mem_append.mp hc with h | h
    · exact (by decide : ∀ c ∈ pys "- 메모: ", c ≠ '|') c h
    · exact hmemo c h
  unfold splitPipe3
  rw [show (pys "- 메모: " ++ memo) ++ pys "|질의응답" =
    (pys "- 메모: " ++ memo) ++ ('|' :: pys "질의응답") from rfl]
  rw [splitPipeGo_skip _ hx 3]
  rw [splitPipeGo_pipe]
  rw [splitPipeGo_no_pipe (pys "질의응답") (by decide) 2]
  simp only [List.append_nil, List.reverse_reverse, List.nil_append, List.map_cons,
    List.map_nil, padTo4]
  simp only [List.reverse_nil, List.nil_append]
  rw [show pyStrip (pys "질의응답") = pys "질의응답" from by decide]
  rfl

/-- C6 counterexample: the claim says the generated row text consists of
exactly three pipe-delimited lines, but the development row's content always
embeds a newline before the memo part, so the text has four physical lines
even for plain inputs. -/
theorem generate_three_lines_cex :
    ¬ (pySplitlines (generate_lesson_table_rows_text
        ⟨1, [], [], pys "숙제", [], 2026⟩ (pys "노트") true)).length = 3 := by
  decide

/-- C6 (amended): the generated text is the three pipe-delimited phase
records joined by newlines, where the development record's content contains
one embedded newline before the memo part; hence, whenever the details
snippet and the note contain no line-break character, the text splits into
exactly four physical lines — the 도입 line (whose content varies with the
prayer flag), the 전개 line (embedding `details[:100]`), the memo line
(embedding the note or its default), and the 정리 line — with the fixed time
allocations 10분/25분/5분. -/
theorem generate_rows_text_amended (wi : WeekInfo) (note : PyStr) (prayer : Bool)
    (h1 : ∀ c ∈ developSeed wi, isLineBreak c = false)
    (h2 : ∀ c ∈ note, isLineBreak c = false) :
    pySplitlines (generate_lesson_table_rows_text wi note prayer) =
      [pys "도입|10분|" ++ (if prayer then pys "기도 및 출석 확인, 지난 시간 복습"
          else pys "출석 확인, 지난 시간 복습") ++ pys "|집중 유도",
       pys "전개|25분|" ++ developSeed wi ++ pys " 설명 및 활동",
       pys "- 메모: " ++ (if note = [] then pys "개념 확인 활동" else note) ++ pys "|질의응답",
       pys "정리|5분|형성평가, 과제 안내, 다음 시간 예고|마무리"] :=
  generate_splitlines wi note prayer h1 h2

/-- Witness for C6 (amended) at a concrete input, matching the four
physical lines of the generated text. -/
theorem generate_rows_text_amended_witness :
    pySplitlines (generate_lesson_table_rows_text
        ⟨1, [], [], pys "숙제", [], 2026⟩ (pys "노트") true) =
      [pys "도입|10분|기도 및 출석 확인, 지난 시간 복습|집중 유도",
       pys "전개|25분|숙제 설명 및 활동",
       pys "- 메모: 노트|질의응답",
       pys "정리|5분|형성평가, 과제 안내, 다음 시간 예고|마무리"] := by
  rw [generate_rows_text_amended ⟨1, [], [], pys "숙제", [], 2026⟩ (pys "노트") true
    (by decide) (by decide)]
  decide

/-- C4 counterexample: the round-trip claim is quantified over every
week_info and every class_plan_note, but a note containing a pipe character
produces 4 rows instead of 3. -/
theorem roundtrip_three_rows_cex :
    ¬ ((normalize_table_rows (parse_table_rows_text (generate_lesson_table_rows_text
          ⟨1, [], [], pys "숙제", [], 2026⟩ (pys "x|y") true))).length = 3 ∧
       ∀ r ∈ normalize_table_rows (parse_table_rows_text (generate_lesson_table_rows_text
          ⟨1, [], [], pys "숙제", [], 2026⟩ (pys "x|y") true)),
         r.phase ≠ [] ∧ r.time ≠ [] ∧ r.content ≠ []) := by
  decide

/-- C4 (amended): whenever the truncated details snippet and the plan note
contain no line-break and no pipe characters, the round-trip
`normalize(parse(generate(week_info, note, True)))` yields exactly 3 rows,
each with non-empty phase, time, and content. -/
theorem roundtrip_three_rows_amended (wi : WeekInfo) (note : PyStr)
    (h1 : ∀ c ∈ developSeed wi, isLineBreak c = false ∧ c ≠ '|')
    (h2 : ∀ c ∈ note, isLineBreak c = false ∧ c ≠ '|') :
    (normalize_table_rows (parse_table_rows_text
        (generate_lesson_table_rows_text wi note true))).length = 3 ∧
    ∀ r ∈ normalize_table_rows (parse_table_rows_text
        (generate_lesson_table_rows_text wi note true)),
      r.phase ≠ [] ∧ r.time ≠ [] ∧ r.content ≠ [] := by
  have hseedPipe : ∀ c ∈ developSeed wi, c ≠ '|' := fun c hc => (h1 c hc).2
  have hmemoPipe : ∀ c ∈ (if note = [] then pys "개념 확인 활동" else note), c ≠ '|' := by
    by_cases hn : note = []
    · rw [if_pos hn]; decide
    · rw [if_neg hn]; exact fun c hc => (h2 c hc).2
  have hlines := generate_splitlines wi note true (fun c hc => (h1 c hc).1)
    (fun c hc => (h2 c hc).1)
  have hlines2 : pySplitlines (generate_lesson_table_rows_text wi note true) =
      [pys "도입|10분|" ++ pys "기도 및 출석 확인, 지난 시간 복습" ++ pys "|집중 유도",
       pys "전개|25분|" ++ developSeed wi ++ pys " 설명 및 활동",
       pys "- 메모: " ++ (if note = [] then pys "개념 확인 활동" else note) ++ pys "|질의응답",
       pys "정리|5분|형성평가, 과제 안내, 다음 시간 예고|마무리"] := by
    rw [hlines]
    simp
  have hstL2 : pyStrip (pys "전개|25분|" ++ developSeed wi ++ pys " 설명 및 활동") =
      pys "전개|25분|" ++ developSeed wi ++ pys " 설명 및 활동" := by
    apply strip_eq_self_of
    · intro c h
      rw [show (pys "전개|25분|" ++ developSeed wi ++ pys " 설명 및 활동").head? =
        some '전' from rfl] at h
      injection h with h
      rw [← h]
      decide
    · intro c h
      rw [List.getLast?_append_of_ne_nil _ (by decide)] at h
      rw [show (pys " 설명 및 활동").getLast? = some '동' from by decide] at h
      injection h with h
      rw [← h]
      decide
  have hneL2 : pys "전개|25분|" ++ developSeed wi ++ pys " 설명 및 활동" ≠ [] := by
    intro h
    exact absurd (List.append_eq_nil.mp h).2 (by decide)
  have hcL2 : (pys "전개|25분|" ++ developSeed wi ++ pys " 설명 및 활동").contains '|' = true := by
    have hmem : '|' ∈ pys "전개|25분|" ++ developSeed wi ++ pys " 설명 및 활동" :=
      List.mem_append.mpr (Or.inl (List.mem_append.mpr (Or.inl (by decide))))
    exact List.elem_iff.mpr hmem
  have hstL3 : pyStrip (pys "- 메모: " ++ (if note = [] then pys "개념 확인 활동" else note) ++
      pys "|질의응답") = pys "- 메모: " ++ (if note = [] then pys "개념 확인 활동" else note) ++
      pys "|질의응답" := by
    apply strip_eq_self_of
    · intro c h
      rw [show (pys "- 메모: " ++ (if note = [] then pys "개념 확인 활동" else note) ++
        pys "|질의응답").head? = some '-' from rfl] at h
      injection h with h
      rw [← h]
      decide
    · intro c h
      rw [List.getLast?_append_of_ne_nil _ (by decide)] at h
      rw [show (pys "|질의응답").getLast? = some '답' from by decide] at h
      injection h with h
      rw [← h]
      decide
  have hneL3 : pys "- 메모: " ++ (if note = [] then pys "개념 확인 활동" else note) ++
      pys "|질의응답" ≠ [] := by
    intro h
    exact absurd (List.append_eq_nil.mp h).2 (by decide)
  have hcL3 : (pys "- 메모: " ++ (if note = [] then pys "개념 확인 활동" else note) ++
      pys "|질의응답").contains '|' = true := by
    have hmem : '|' ∈ pys "- 메모: " ++ (if note = [] then pys "개념 확인 활동" else note) ++
        pys "|질의응답" := List.mem_append.mpr (Or.inr (by decide))
    exact List.elem_iff.mpr hmem
  have hparse : parse_table_rows_text (generate_lesson_table_rows_text wi note true) =
      normalize_table_rows
        [⟨pys "도입", pys "10분", pys "기도 및 출석 확인, 지난 시간 복습", pys "집중 유도"⟩,
         ⟨pys "전개", pys "25분", pyStrip (developSeed wi ++ pys " 설명 및 활동"), []⟩,
         ⟨pyStrip (pys "- 메모: " ++ (if note = [] then pys "개념 확인 활동" else note)),
           pys "질의응답", [], []⟩,
         ⟨pys "정리", pys "5분", pys "형성평가, 과제 안내, 다음 시간 예고", pys "마무리"⟩] := by
    unfold parse_table_rows_text
    rw [hlines2]
    rw [parseGo_step_pipe _ _ (by decide) (by decide) (by decide)
      (show padTo4 ((splitPipe3 (pys "도입|10분|" ++ pys "기도 및 출석 확인, 지난 시간 복습" ++
          pys "|집중 유도")).map pyStrip) =
        [pys "도입", pys "10분", pys "기도 및 출석 확인, 지난 시간 복습", pys "집중 유도"]
        from by decide)]
    rw [parseGo_step_pipe _ _ hstL2 hneL2 hcL2 (split_line2 _ hseedPipe)]
    rw [parseGo_step_pipe _ _ hstL3 hneL3 hcL3 (split_line3 _ hmemoPipe)]
    rw [parseGo_step_pipe _ _ (by decide) (by decide) (by decide)
      (show padTo4 ((splitPipe3 (pys "정리|5분|형성평가, 과제 안내, 다음 시간 예고|마무리")).map pyStrip) =
        [pys "정리", pys "5분", pys "형성평가, 과제 안내, 다음 시간 예고", pys "마무리"]
        from by decide)]
    simp [parseGo]
  have hC2ne : pyStrip (developSeed wi ++ pys " 설명 및 활동") ≠ [] :=
    strip_ne_nil '동' (List.mem_append.mpr (Or.inr (by decide))) (by decide)
  have hP1ne : pyStrip (pys "- 메모: " ++ (if note = [] then pys "개념 확인 활동" else note)) ≠ [] :=
    strip_ne_nil '-' (List.mem_append.mpr (Or.inl (by decide))) (by decide)
  have haddon : rowAddon
      (pyStrip (pys "- 메모: " ++ (if note = [] then pys "개념 확인 활동" else note)))
      (pys "질의응답") [] =
      pyStrip (pys "- 메모: " ++ (if note = [] then pys "개념 확인 활동" else note)) ++
        pys " | " ++ pys "질의응답" := by
    unfold rowAddon
    rw [List.filter_cons_of_pos (by exact decide_eq_true hP1ne),
        List.filter_cons_of_pos (by decide),
        List.filter_cons_of_neg (by decide), List.filter_nil]
    simp [joinSep]
  have hane : rowAddon
      (pyStrip (pys "- 메모: " ++ (if note = [] then pys "개념 확인 활동" else note)))
      (pys "질의응답") [] ≠ [] := by
    rw [haddon]
    intro h
    exact hP1ne (List.append_eq_nil.mp (List.append_eq_nil.mp h).1).1
  have hnorm : normalize_table_rows
      [⟨pys "도입", pys "10분", pys "기도 및 출석 확인, 지난 시간 복습", pys "집중 유도"⟩,
       ⟨pys "전개", pys "25분", pyStrip (developSeed wi ++ pys " 설명 및 활동"), []⟩,
       ⟨pyStrip (pys "- 메모: " ++ (if note = [] then pys "개념 확인 활동" else note)),
         pys "질의응답", [], []⟩,
       ⟨pys "정리", pys "5분", pys "형성평가, 과제 안내, 다음 시간 예고", pys "마무리"⟩] =
      [⟨pys "도입", pys "10분", pys "기도 및 출석 확인, 지난 시간 복습", pys "집중 유도"⟩,
       ⟨pys "전개", pys "25분", pyStrip (pyStrip (developSeed wi ++ pys " 설명 및 활동") ++
         pys "\n" ++ (pyStrip (pys "- 메모: " ++
           (if note = [] then pys "개념 확인 활동" else note)) ++
         pys " | " ++ pys "질의응답")), []⟩,
       ⟨pys "정리", pys "5분", pys "형성평가, 과제 안내, 다음 시간 예고", pys "마무리"⟩] := by
    unfold normalize_table_rows
    rw [normGo_step_keep _ _ ⟨by decide, by decide, by decide, by decide⟩
      (by intro hall; exact absurd hall.1 (by decide)) (by simp)]
    rw [normGo_step_keep _ _ ⟨show pyStrip (pys "전개") = pys "전개" from by decide,
        show pyStrip (pys "25분") = pys "25분" from by decide, strip_idem _,
        show pyStrip ([] : PyStr) = [] from rfl⟩
      (someField_of_content hC2ne) (by intro h; exact hC2ne h.1)]
    rw [normGo_step_merge _ _ ⟨strip_idem _,
        show pyStrip (pys "질의응답") = pys "질의응답" from by decide,
        show pyStrip ([] : PyStr) = [] from rfl,
        show pyStrip ([] : PyStr) = [] from rfl⟩
      (by intro hall; exact hP1ne hall.1) rfl (by simp) hane]
    rw [haddon]
    simp only [List.nil_append, List.singleton_append, updateLastContent]
    rw [normGo_step_keep _ _ ⟨by decide, by decide, by decide, by decide⟩
      (by intro hall; exact absurd hall.1 (by decide))
      (by intro h; exact absurd h.1 (by decide))]
    simp [normGo]
  rw [hparse, normalize_idem_core, hnorm]
  constructor
  · rfl
  · intro r hr
    simp only [List.mem_cons, List.not_mem_nil, or_false] at hr
    obtain ⟨e, es, hC2⟩ : ∃ e es,
        pyStrip (developSeed wi ++ pys " 설명 및 활동") = e :: es := by
      cases hx : pyStrip (developSeed wi ++ pys " 설명 및 활동") with
      | nil => exact absurd hx hC2ne
      | cons e es => exact ⟨e, es, rfl⟩
    have he := strip_head_not_space hC2
    rcases hr with rfl | rfl | rfl
    · exact ⟨by decide, by decide, by decide⟩
    · refine ⟨show pys "전개" ≠ [] from by decide, show pys "25분" ≠ [] from by decide, ?_⟩
      refine strip_ne_nil e ?_ (by simp [he])
      rw [hC2]
      simp
    · exact ⟨by decide, by decide, by decide⟩

/-- Witness for C4 (amended) at a concrete input. -/
theorem roundtrip_three_rows_amended_witness :
    (normalize_table_rows (parse_table_rows_text (generate_lesson_table_rows_text
        ⟨1, [], [], pys "숙제", [], 2026⟩ (pys "노트") true))).length = 3 ∧
    ∀ r ∈ normalize_table_rows (parse_table_rows_text (generate_lesson_table_rows_text
        ⟨1, [], [], pys "숙제", [], 2026⟩ (pys "노트") true)),
      r.phase ≠ [] ∧ r.time ≠ [] ∧ r.content ≠ [] :=
  roundtrip_three_rows_amended ⟨1, [], [], pys "숙제", [], 2026⟩ (pys "노트")
    (by decide) (by decide)

/-! ### Claim theorems for the week segmenter -/

theorem buildWeeks_cons (cs : PyStr) (year : Nat) (m : WeekMatch) (rest : List WeekMatch) :
    ∃ w0, buildWeeks cs year (m :: rest) = w0 :: buildWeeks cs year rest ∧
      w0.week_no = (digitsToNat m.wkNo : Int) :=
  ⟨_, rfl, rfl⟩

theorem buildWeeks_week_no_nonneg (cs : PyStr) (year : Nat) :
    ∀ (ms : List WeekMatch) (w : WeekInfo), w ∈ buildWeeks cs year ms → 0 ≤ w.week_no := by
  intro ms
  induction ms with
  | nil => intro w hw; simp [buildWeeks] at hw
  | cons m rest ih =>
    intro w hw
    obtain ⟨w0, heq, hwk⟩ := buildWeeks_cons cs year m rest
    rw [heq] at hw
    rcases List.mem_cons.mp hw with h | h
    · rw [h, hwk]
      exact Int.ofNat_nonneg _
    · exact ih w h

/-- C7: for every input whose week-header pattern has zero matches,
`parse_weeks_from_text` returns exactly one fallback record with
`week_no = 1`, `date_range = "N/A"`, `events = []`, and `details`/`raw_text`
set to the truncated whitespace-collapsed input (or the literal placeholder
if that is empty); and for every input it returns at least one record. -/
theorem parse_weeks_fallback_c7 : ∀ (todayYear : Nat) (text : PyStr),
    (collectWeekMatches (cleanedOf text) (lineStarts (cleanedOf text)) 0 = [] →
      parse_weeks_from_text todayYear text =
        [⟨1, pys "N/A", [],
          (if (collapseWs (cleanedOf text)).take 500 = [] then pys "주차 정보 없음"
           else (collapseWs (cleanedOf text)).take 500),
          (if (collapseWs (cleanedOf text)).take 500 = [] then pys "주차 정보 없음"
           else (collapseWs (cleanedOf text)).take 500),
          (yearSearch text).getD todayYear⟩]) ∧
    1 ≤ (parse_weeks_from_text todayYear text).length := by
  intro ty text
  constructor
  · intro h
    simp only [parse_weeks_from_text, h, buildWeeks]
    rfl
  · simp only [parse_weeks_from_text]
    cases hms : collectWeekMatches (cleanedOf text) (lineStarts (cleanedOf text)) 0 with
    | nil => simp [buildWeeks]
    | cons m ms =>
      obtain ⟨w0, heq, _⟩ := buildWeeks_cons (cleanedOf text) ((yearSearch text).getD ty) m ms
      rw [heq]
      simp

/-- Witness for C7 at a concrete matchless input. -/
theorem parse_weeks_fallback_c7_witness :
    parse_weeks_from_text 2025 (pys "hello world") =
      [⟨1, pys "N/A", [], pys "hello world", pys "hello world", 2025⟩] ∧
    1 ≤ (parse_weeks_from_text 2025 (pys "hello world")).length := by
  constructor
  · rw [(parse_weeks_fallback_c7 2025 (pys "hello world")).1 (by decide)]
    decide
  · exact (parse_weeks_fallback_c7 2025 (pys "hello world")).2

/-- C9 counterexample: `WEEK_RE` accepts a zero week number (`0주`), so a
parsed record can have `week_no = 0`, which is not strictly positive. -/
theorem week_no_positive_cex :
    ¬ ∀ w ∈ parse_weeks_from_text 2025 (pys "0주 1.1-1.2"), 0 < w.week_no := by
  decide

/-- C9 (amended): every `WeekInfo` returned by `parse_weeks_from_text` has a
nonnegative `week_no` (1 for the fallback record, the numeric value of the
matched 1-2 digit week number otherwise, which is 0 when those digits are
all zeros). -/
theorem week_no_nonneg_amended : ∀ (todayYear : Nat) (text : PyStr),
    ∀ w ∈ parse_weeks_from_text todayYear text, 0 ≤ w.week_no := by
  intro ty text w hw
  simp only [parse_weeks_from_text] at hw
  split at hw
  · simp only [List.mem_singleton] at hw
    rw [hw]
    exact Int.zero_le_ofNat 1
  · exact buildWeeks_week_no_nonneg _ _ _ w hw

/-- Witness for C9 (amended) at a concrete input. -/
theorem week_no_nonneg_amended_witness :
    (0 : Int) ≤ (WeekInfo.mk 0 (pys "1.1-1.2") [] (pys "0주 1.1-1.2")
      (pys "0주 1.1-1.2") 2025).week_no :=
  week_no_nonneg_amended 2025 (pys "0주 1.1-1.2") _ (by decide)

/-! ### Claim theorems for date inference -/

theorem collectDates_range (y m dend : Nat) (targets : List Nat)
    (hdm : dend ≤ daysInMonth y m) :
    ∀ (n dstart : Nat), dstart + n = dend + 1 →
    collectDates n ⟨y, m, dstart⟩ ⟨y, m, dend⟩ targets =
      ((List.range' dstart n).filter (fun d =>
        decide (targets = [] ∨ pyWeekday ⟨y, m, d⟩ ∈ targets))).map
        (fun d => (⟨y, m, d⟩ : PyDate)) := by
  intro n
  induction n with
  | zero => intro dstart h; simp [collectDates]
  | succ k ih =>
    intro dstart h
    simp only [collectDates]
    rw [if_pos (show dateLeB ⟨y, m, dstart⟩ ⟨y, m, dend⟩ = true by
      simp [dateLeB]
      omega)]
    cases k with
    | zero =>
      simp only [collectDates, List.append_nil]
      rw [show List.range' dstart 1 = [dstart] from rfl]
      by_cases hp : targets = [] ∨ pyWeekday ⟨y, m, dstart⟩ ∈ targets
      · rw [if_pos hp]
        simp [hp]
      · rw [if_neg hp]
        simp [hp]
    | succ k2 =>
      have hnd : nextDay ⟨y, m, dstart⟩ = ⟨y, m, dstart + 1⟩ := by
        unfold nextDay
        rw [if_pos (show dstart < daysInMonth y m by omega)]
      rw [hnd, ih (dstart + 1) (by omega)]
      rw [show List.range' dstart (k2 + 1 + 1) =
        dstart :: List.range' (dstart + 1) (k2 + 1) from rfl]
      by_cases hp : targets = [] ∨ pyWeekday ⟨y, m, dstart⟩ ∈ targets
      · rw [if_pos hp]
        simp [hp]
      · rw [if_neg hp]
        simp [hp]

/-- C8: for a week whose `date_range` is `"2.23-2.27"` (with a valid year),
whose text contains the weekday hint `화/목` and no explicit
day-of-month+weekday pair (and no holiday/event keyword, which would append
the fixed confirmation suffix), `infer_class_dates_from_week` returns
exactly the calendar dates between 2.23 and 2.27 inclusive of the week's
year whose weekday is Tuesday or Thursday, formatted `M.D(weekday)` and
joined with `", "`. -/
theorem infer_class_dates_c8 (todayYear : Nat) (wi : WeekInfo)
    (hdr : wi.date_range = pys "2.23-2.27")
    (hy1 : 1 ≤ wi.year) (hy2 : wi.year ≤ 9999)
    (htok : weekdayCharsOf (wi.raw_text ++ pys " " ++ wi.details) = ['화', '목'])
    (hdd : dateDayFindall (wi.raw_text ++ pys " " ++ wi.details) = [])
    (hhol : holidaySearch (wi.raw_text ++ pys " " ++ wi.details) = false) :
    infer_class_dates_from_week todayYear wi = Except.ok (claimC8Dates wi.year) := by
  have hyne : ¬ wi.year = 0 := by omega
  have hdm : 28 ≤ daysInMonth wi.year 2 := by
    rw [show daysInMonth wi.year 2 = if isLeap wi.year then 29 else 28 from rfl]
    by_cases hL : isLeap wi.year
    · rw [if_pos hL]
      omega
    · rw [if_neg hL]
  have hstart : mkDatetime wi.year 2 23 = Except.ok ⟨wi.year, 2, 23⟩ := by
    unfold mkDatetime
    rw [if_pos ⟨hy1, hy2, by omega, by omega, by omega, by omega⟩]
  have hend : mkDatetime wi.year 2 27 = Except.ok ⟨wi.year, 2, 27⟩ := by
    unfold mkDatetime
    rw [if_pos ⟨hy1, hy2, by omega, by omega, by omega, by omega⟩]
  have hlt : dateLtB ⟨wi.year, 2, 27⟩ ⟨wi.year, 2, 23⟩ = false := by
    simp [dateLtB]
  have hfuel : toOrdinal ⟨wi.year, 2, 27⟩ + 1 - toOrdinal ⟨wi.year, 2, 23⟩ = 5 := by
    simp only [toOrdinal]
    omega
  simp only [infer_class_dates_from_week, hdr, hdd, htok, hhol, if_neg hyne,
    show mmddFindall (pys "2.23-2.27") = [(pys "2", pys "23"), (pys "2", pys "27")]
      from by decide,
    show digitsToNat (pys "2") = 2 from by decide,
    show digitsToNat (pys "23") = 23 from by decide,
    show digitsToNat (pys "27") = 27 from by decide,
    hstart, hend, hlt, hfuel,
    show dedupKeepOrder ['화', '목'] = ['화', '목'] from by decide,
    show (List.filter isWeekdayChar ['화', '목']).map weekdayNum = [1, 3] from by decide,
    List.map_nil]
  simp only [Bool.false_eq_true, ite_false, ne_eq, eq_self_iff_true, not_true, hfuel,
    ite_true, not_false_eq_true]
  rw [collectDates_range wi.year 2 27 [1, 3] (by omega) 5 23 (by decide)]
  rw [show List.range' 23 5 = [23, 24, 25, 26, 27] from by decide]
  have hwd : ∀ d : Nat, 23 ≤ d → d ≤ 27 →
      pyWeekday ⟨wi.year, 2, d⟩ = (pyWeekday ⟨wi.year, 2, 23⟩ + (d - 23)) % 7 := by
    intro d h1 h2
    simp only [pyWeekday, toOrdinal]
    omega
  have hw7 : pyWeekday ⟨wi.year, 2, 23⟩ ∈ [0, 1, 2, 3, 4, 5, 6] := by
    have hlt7 : pyWeekday ⟨wi.year, 2, 23⟩ < 7 := Nat.mod_lt _ (by norm_num)
    simp only [List.mem_cons, List.not_mem_nil, or_false]
    omega
  have hex : ∀ w ∈ [0, 1, 2, 3, 4, 5, 6], ∃ i ∈ [0, 1, 2, 3, 4],
      ((w + i) % 7 = 1 ∨ (w + i) % 7 = 3) := by decide
  obtain ⟨i, hi, hior⟩ := hex _ hw7
  have hi5 : i ≤ 4 := by
    simp only [List.mem_cons, List.not_mem_nil, or_false] at hi
    omega
  have hpredi : pyWeekday ⟨wi.year, 2, 23 + i⟩ = 1 ∨ pyWeekday ⟨wi.year, 2, 23 + i⟩ = 3 := by
    rw [hwd (23 + i) (by omega) (by omega)]
    simpa using hior
  have hfne : ([23, 24, 25, 26, 27].filter (fun d =>
      decide (([1, 3] : List Nat) = [] ∨ pyWeekday ⟨wi.year, 2, d⟩ ∈ [1, 3]))) ≠ [] := by
    have hmem1 : (23 + i) ∈ [23, 24, 25, 26, 27] := by
      simp only [List.mem_cons, List.not_mem_nil, or_false]
      omega
    have hmem2 : decide (([1, 3] : List Nat) = [] ∨
        pyWeekday ⟨wi.year, 2, 23 + i⟩ ∈ [1, 3]) = true := by
      simp only [decide_eq_true_eq, List.mem_cons, List.not_mem_nil, or_false]
      tauto
    exact List.ne_nil_of_mem (List.mem_filter.mpr ⟨hmem1, hmem2⟩)
  rw [if_neg (by
    intro hmapnil
    rw [List.map_eq_nil_iff] at hmapnil
    exact hfne hmapnil)]
  unfold claimC8Dates
  rw [show List.range' 23 5 = [23, 24, 25, 26, 27] from by decide]
  rw [List.map_map]
  rw [List.filter_congr (fun d _ => show
    decide (([1, 3] : List Nat) = [] ∨ pyWeekday ⟨wi.year, 2, d⟩ ∈ [1, 3]) =
    decide (pyWeekday ⟨wi.year, 2, d⟩ = 1 ∨ pyWeekday ⟨wi.year, 2, d⟩ = 3) from by
      rw [decide_eq_decide]
      simp)]
  refine congrArg Except.ok (congrArg (joinSep (pys ", ")) ?_)
  apply List.map_congr_left
  intro d _
  simp only [Function.comp]
  rw [show (natToPy 2 ++ pys "." : PyStr) = pys "2." from by decide]

/-- Witness for C8 at year 2026, matching the spec's example output
`"2.24(화), 2.26(목)"`. -/
theorem infer_class_dates_c8_witness :
    infer_class_dates_from_week 2025 ⟨5, pys "2.23-2.27", [], [], pys "화/목", 2026⟩ =
      Except.ok (claimC8Dates 2026) ∧
    claimC8Dates 2026 = pys "2.24(화), 2.26(목)" := by
  constructor
  · exact infer_class_dates_c8 2025 ⟨5, pys "2.23-2.27", [], [], pys "화/목", 2026⟩
      rfl (by decide) (by decide) (by decide) (by decide) (by decide)
  · decide

/-! ### Claim theorems for the topic/objective suggester -/

/-- C1: evaluated on a week and a curriculum row matching its `week_no`
with an empty `class_name`, `suggest_topic_objective` does not return the
row's topic/objective — it raises `NameError` (its body references the
undefined names `dr`/`year`/`raw`, a duplicated copy of
`infer_class_dates_from_week`), so the curriculum-row branch described by
the spec is unreachable. -/
theorem suggest_topic_objective_name_error_c1 :
    suggest_topic_objective ⟨3, pys "2.23-2.27", [], [], [], 2026⟩ (pys "7A") (pys "성경")
      [⟨some 3, [], pys "분수의 이해", pys "분수를 이해한다", []⟩] =
      Except.error (PyErr.nameError "dr") := rfl

/-- C2: `suggest_topic_objective` raises on every input — here evaluated at
a minimal input — contradicting the spec's claim that no branch of the
suggesters ever raises (`suggest_topic_objective_from_syllabus`, by
contrast, is total by construction in this model). -/
theorem suggest_topic_objective_raises_c2 :
    suggest_topic_objective ⟨1, [], [], [], [], 0⟩ [] [] [] =
      Except.error (PyErr.nameError "dr") := rfl
